import Mathlib

/-!
# Bitbucket2Gitea: the `migrate` command and `CreateAndGetOrg`

A shallow embedding of `cmd/migrate.go` (`migrateCmd.RunE`) and of
`migration/gitea.go` (`CreateAndGetOrg`), followed by theorems about them.

Conventions of the embedding.

* Go `error` values are identified by their message (`Error := String`).
* The collaborators whose code is outside the embedded files (the Bitbucket
  reader, `GreateOrGetUser`, `CreateNewOrg`, `MigrateNewRepo`, `NewMigration`,
  the Gitea SDK client and `strings.ToLower`) are parameters.  The source
  system is a snapshot: its answers depend only on the arguments.  The
  answers of the target system may depend on every call made so far.
* Every collaborator call is appended to a chronological trace together with
  the error it returned.
* `map[string][]string` is an association list with at most one entry per
  key that is read with `PermMap.get` (a missing key reads as the empty
  slice, as in Go).
* A run-time panic (index out of range, nil dereference) is an outcome of
  its own.
-/

namespace Bitbucket2Gitea

/-- Go `error`, identified by its message. -/
abbrev Error := String

/-! ## Data read from the source system -/

/-- The fields of a Bitbucket user that `migrate.go` reads. -/
structure User where
  Name : String
  DisplayName : String
  EmailAddress : String
deriving DecidableEq, Repr

/-- One direct grant: `user.User`, `user.Permission`. -/
structure UserPermission where
  User : Bitbucket2Gitea.User
  Permission : String
deriving DecidableEq, Repr

/-- The fields of a Bitbucket group that `migrate.go` reads. -/
structure Group where
  Name : String
deriving DecidableEq, Repr

/-- One group grant: `group.Group`, `group.Permission`. -/
structure GroupPermission where
  Group : Bitbucket2Gitea.Group
  Permission : String
deriving DecidableEq, Repr

/-- Source project: `org.Name`, `org.Description`, `org.Public`. -/
structure Project where
  Name : String
  Description : String
  Public : Bool
deriving DecidableEq, Repr

/-- One clone link: `Href` is the URL, `Name` the protocol (`http`, `ssh`). -/
structure CloneLink where
  Href : String
  Name : String
deriving DecidableEq, Repr

/-- The `Links` of a repository: the ordered clone links. -/
structure Links where
  Clone : List CloneLink
deriving DecidableEq, Repr

/-- Source repository: `repo.Name`, `repo.Description`, `repo.Public`,
`repo.Links.Clone`. -/
structure Repository where
  Name : String
  Description : String
  Public : Bool
  Links : Bitbucket2Gitea.Links
deriving DecidableEq, Repr

/-! ## `map[string][]string` -/

/-- Go `map[string][]string`. -/
abbrev PermMap := List (String × List String)

/-- Reading `m[k]`: the stored slice, or the empty slice for a missing key. -/
def PermMap.get : PermMap → String → List String
  | [], _ => []
  | (k', v) :: m, k => if k' = k then v else PermMap.get m k

/-- Writing `m[k] = v`. -/
def PermMap.set : PermMap → String → List String → PermMap
  | [], k, v => [(k, v)]
  | (k', v') :: m, k, v => if k' = k then (k, v) :: m else (k', v') :: PermMap.set m k v

/-- The statement `m[k] = append(m[k], x)`. -/
def PermMap.append (m : PermMap) (k : String) (x : String) : PermMap :=
  m.set k (m.get k ++ [x])

/-! ## Options handed to the target system -/

/-- The type `migration.CreateUserOption` as built in `migrate.go`. -/
structure CreateUserOption where
  SourceID : Int
  LoginName : String
  Username : String
  FullName : String
  Email : String
deriving DecidableEq, Repr

/-- The type `migration.CreateNewOrgOption` as built in `migrate.go`. -/
structure CreateNewOrgOption where
  Name : String
  Description : String
  Public : Bool
  Permission : PermMap
deriving DecidableEq, Repr

/-- The type `migration.MigrateNewRepoOption` as built in `migrate.go`. -/
structure MigrateNewRepoOption where
  Owner : String
  Name : String
  CloneAddr : String
  Description : String
  Private : Bool
  Permission : PermMap
deriving DecidableEq, Repr

/-! ## Collaborator calls and the trace -/

/-- A collaborator call made by `migrateCmd.RunE`, with its arguments. -/
inductive Call where
  | NewMigration
  | GetProject (projectKey : String)
  | GetUsersPermissionFromProject (projectKey : String)
  | GetGroupsPermissionFromProject (projectKey : String)
  | GetUsersFromGroup (name : String)
  | GetRepo (projectKey repoSlug : String)
  | GetGroupsPermissionFromRepo (projectKey repoSlug : String)
  | GetUsersPermissionFromRepo (projectKey repoSlug : String)
  | GreateOrGetUser (opts : CreateUserOption)
  | CreateNewOrg (opts : CreateNewOrgOption)
  | MigrateNewRepo (opts : MigrateNewRepoOption)
deriving DecidableEq, Repr

/-- A call together with the error it returned (`none` is Go `nil`). -/
structure Event where
  call : Call
  err : Option Error
deriving DecidableEq, Repr

/-! ## Collaborators -/

/-- The source reader `m.Bitbucket`: a snapshot of the source system. -/
structure Bitbucket where
  GetProject : String → Except Error Project
  GetUsersPermissionFromProject : String → Except Error (List UserPermission)
  GetGroupsPermissionFromProject : String → Except Error (List GroupPermission)
  GetUsersFromGroup : String → Except Error (List User)
  GetRepo : String → String → Except Error Repository
  GetGroupsPermissionFromRepo : String → String → Except Error (List GroupPermission)
  GetUsersPermissionFromRepo : String → String → Except Error (List UserPermission)

/-- The target client `m.Gitea`; the first argument is the trace so far. -/
structure Gitea where
  GreateOrGetUser : List Event → CreateUserOption → Option Error

/-- The value `m` returned by `migration.NewMigration`; the first argument of
the two methods is the trace so far. -/
structure Migration where
  Bitbucket : Bitbucket2Gitea.Bitbucket
  Gitea : Bitbucket2Gitea.Gitea
  CreateNewOrg : List Event → CreateNewOrgOption → Option Error
  MigrateNewRepo : List Event → MigrateNewRepoOption → Option Error

/-- Everything outside `migrate.go` that a run depends on: the result of
`migration.NewMigration(ctx)` and the function `strings.ToLower`. -/
structure World where
  NewMigration : Except Error Migration
  ToLower : String → String

/-- The package-level flag variables of `migrate.go`. -/
structure Flags where
  projectKey : String
  repoSlug : String
  targetOwner : String
  targetRepo : String
  sourceID : Int
deriving DecidableEq, Repr

/-- How `RunE` ends. -/
inductive Exit where
  | nil
  | err (e : Error)
  | panic (msg : String)
deriving DecidableEq, Repr

/-- The observable result of one run: how it ended, the calls it made, and the
two local permission tables as they stood when it ended. -/
structure Run where
  exit : Exit
  trace : List Event
  projectPermission : PermMap
  repoPermission : PermMap
deriving DecidableEq, Repr

/-! ## `migrateCmd.RunE` -/

/-- The `CreateUserOption` literal of lines 64-70, 99-105, 143-149, 168-174. -/
def userOpts (toLower : String → String) (sourceID : Int) (user : User) : CreateUserOption :=
  { SourceID := sourceID
    LoginName := toLower user.Name
    Username := user.Name
    FullName := user.DisplayName
    Email := user.EmailAddress }

/-- The loop `for _, user := range users` over direct grants (lines 58-75 and
162-179), run on the table `perm` and the trace `tr`. -/
def userLoop (gitea : Gitea) (toLower : String → String) (sourceID : Int) :
    List UserPermission → PermMap → List Event → Option Error × PermMap × List Event
  | [], perm, tr => (none, perm, tr)
  | user :: users, perm, tr =>
    match gitea.GreateOrGetUser tr (userOpts toLower sourceID user.User) with
    | some e => (some e, perm, tr ++ [⟨.GreateOrGetUser (userOpts toLower sourceID user.User), some e⟩])
    | none =>
      userLoop gitea toLower sourceID users
        (perm.append user.Permission (toLower user.User.Name))
        (tr ++ [⟨.GreateOrGetUser (userOpts toLower sourceID user.User), none⟩])

/-- The inner loop `for _, user := range users` over the members of one group
(lines 92-110 and 136-154); `permission` is `group.Permission`. -/
def memberLoop (gitea : Gitea) (toLower : String → String) (sourceID : Int) (permission : String) :
    List User → PermMap → List Event → Option Error × PermMap × List Event
  | [], perm, tr => (none, perm, tr)
  | user :: users, perm, tr =>
    match gitea.GreateOrGetUser tr (userOpts toLower sourceID user) with
    | some e => (some e, perm, tr ++ [⟨.GreateOrGetUser (userOpts toLower sourceID user), some e⟩])
    | none =>
      memberLoop gitea toLower sourceID permission users
        (perm.append permission (toLower user.Name))
        (tr ++ [⟨.GreateOrGetUser (userOpts toLower sourceID user), none⟩])

/-- The loop `for _, group := range groups` (lines 82-111 and 126-155). -/
def groupLoop (m : Migration) (toLower : String → String) (sourceID : Int) :
    List GroupPermission → PermMap → List Event → Option Error × PermMap × List Event
  | [], perm, tr => (none, perm, tr)
  | group :: groups, perm, tr =>
    match m.Bitbucket.GetUsersFromGroup group.Group.Name with
    | .error e => (some e, perm, tr ++ [⟨.GetUsersFromGroup group.Group.Name, some e⟩])
    | .ok users =>
      match memberLoop m.Gitea toLower sourceID group.Permission users perm
          (tr ++ [⟨.GetUsersFromGroup group.Group.Name, none⟩]) with
      | (some e, perm', tr') => (some e, perm', tr')
      | (none, perm', tr') => groupLoop m toLower sourceID groups perm' tr'

/-- Lines 181-216: target names, `CreateNewOrg`, `MigrateNewRepo`. -/
def provision (m : Migration) (f : Flags) (org : Project) (repo : Repository)
    (projectPermission repoPermission : PermMap) (tr : List Event) : Run :=
  let targetOwner := if f.targetOwner = "" then org.Name else f.targetOwner
  let targetRepo := if f.targetRepo = "" then repo.Name else f.targetRepo
  let orgOpts : CreateNewOrgOption :=
    { Name := targetOwner
      Description := org.Description
      Public := org.Public
      Permission := projectPermission }
  match m.CreateNewOrg tr orgOpts with
  | some e => ⟨.err e, tr ++ [⟨.CreateNewOrg orgOpts, some e⟩], projectPermission, repoPermission⟩
  | none =>
    match repo.Links.Clone[1]? with
    | none =>
      ⟨.panic "index out of range [1]", tr ++ [⟨.CreateNewOrg orgOpts, none⟩],
        projectPermission, repoPermission⟩
    | some link =>
      let repoOpts : MigrateNewRepoOption :=
        { Owner := targetOwner
          Name := targetRepo
          CloneAddr := link.Href
          Description := repo.Description
          Private := !repo.Public
          Permission := repoPermission }
      match m.MigrateNewRepo (tr ++ [⟨.CreateNewOrg orgOpts, none⟩]) repoOpts with
      | some e =>
        ⟨.err e, tr ++ [⟨.CreateNewOrg orgOpts, none⟩, ⟨.MigrateNewRepo repoOpts, some e⟩],
          projectPermission, repoPermission⟩
      | none =>
        ⟨.nil, tr ++ [⟨.CreateNewOrg orgOpts, none⟩, ⟨.MigrateNewRepo repoOpts, none⟩],
          projectPermission, repoPermission⟩

/-- Lines 113-179 followed by `provision`: the repository, its group grants,
its direct grants. -/
def repoScope (m : Migration) (toLower : String → String) (f : Flags) (org : Project)
    (projectPermission : PermMap) (tr : List Event) : Run :=
  match m.Bitbucket.GetRepo f.projectKey f.repoSlug with
  | .error e => ⟨.err e, tr ++ [⟨.GetRepo f.projectKey f.repoSlug, some e⟩], projectPermission, []⟩
  | .ok repo =>
    match m.Bitbucket.GetGroupsPermissionFromRepo f.projectKey f.repoSlug with
    | .error e =>
      ⟨.err e, tr ++ [⟨.GetRepo f.projectKey f.repoSlug, none⟩,
          ⟨.GetGroupsPermissionFromRepo f.projectKey f.repoSlug, some e⟩], projectPermission, []⟩
    | .ok groups =>
      match groupLoop m toLower f.sourceID groups []
          (tr ++ [⟨.GetRepo f.projectKey f.repoSlug, none⟩,
            ⟨.GetGroupsPermissionFromRepo f.projectKey f.repoSlug, none⟩]) with
      | (some e, rp, tr1) => ⟨.err e, tr1, projectPermission, rp⟩
      | (none, rp, tr1) =>
        match m.Bitbucket.GetUsersPermissionFromRepo f.projectKey f.repoSlug with
        | .error e =>
          ⟨.err e, tr1 ++ [⟨.GetUsersPermissionFromRepo f.projectKey f.repoSlug, some e⟩],
            projectPermission, rp⟩
        | .ok users =>
          match userLoop m.Gitea toLower f.sourceID users rp
              (tr1 ++ [⟨.GetUsersPermissionFromRepo f.projectKey f.repoSlug, none⟩]) with
          | (some e, rp', tr2) => ⟨.err e, tr2, projectPermission, rp'⟩
          | (none, rp', tr2) => provision m f org repo projectPermission rp' tr2

/-- Lines 45-111 followed by `repoScope`: the project, its direct grants, its
group grants. -/
def projectScope (m : Migration) (toLower : String → String) (f : Flags) (tr : List Event) : Run :=
  match m.Bitbucket.GetProject f.projectKey with
  | .error e => ⟨.err e, tr ++ [⟨.GetProject f.projectKey, some e⟩], [], []⟩
  | .ok org =>
    match m.Bitbucket.GetUsersPermissionFromProject f.projectKey with
    | .error e =>
      ⟨.err e, tr ++ [⟨.GetProject f.projectKey, none⟩,
          ⟨.GetUsersPermissionFromProject f.projectKey, some e⟩], [], []⟩
    | .ok users =>
      match userLoop m.Gitea toLower f.sourceID users []
          (tr ++ [⟨.GetProject f.projectKey, none⟩,
            ⟨.GetUsersPermissionFromProject f.projectKey, none⟩]) with
      | (some e, pp, tr1) => ⟨.err e, tr1, pp, []⟩
      | (none, pp, tr1) =>
        match m.Bitbucket.GetGroupsPermissionFromProject f.projectKey with
        | .error e =>
          ⟨.err e, tr1 ++ [⟨.GetGroupsPermissionFromProject f.projectKey, some e⟩], pp, []⟩
        | .ok groups =>
          match groupLoop m toLower f.sourceID groups pp
              (tr1 ++ [⟨.GetGroupsPermissionFromProject f.projectKey, none⟩]) with
          | (some e, pp', tr2) => ⟨.err e, tr2, pp', []⟩
          | (none, pp', tr2) => repoScope m toLower f org pp' tr2

/-- The function `migrateCmd.RunE` (lines 33-216). -/
def RunE (w : World) (f : Flags) : Run :=
  match w.NewMigration with
  | .error e => ⟨.err e, [⟨.NewMigration, some e⟩], [], []⟩
  | .ok m =>
    if f.projectKey = "" ∨ f.repoSlug = "" then
      ⟨.err "project-key or repo-slug is empty", [⟨.NewMigration, none⟩], [], []⟩
    else
      projectScope m w.ToLower f [⟨.NewMigration, none⟩]

/-! ## `gitea.CreateAndGetOrg` (`migration/gitea.go`) -/

/-- The constant `http.StatusNotFound`. -/
def http.StatusNotFound : Nat := 404

/-- The type `gsdk.VisibleType` of the Gitea SDK. -/
inductive gsdk.VisibleType where
  | VisibleTypePublic
  | VisibleTypeLimited
  | VisibleTypePrivate
deriving DecidableEq, Repr

/-- The fields of `gsdk.Organization` that identify and describe a record. -/
structure gsdk.Organization where
  ID : Int
  UserName : String
  FullName : String
  Description : String
  Visibility : String
deriving DecidableEq, Repr

/-- The HTTP response `gsdk.Response`, of which the code reads `StatusCode`. -/
structure gsdk.Response where
  StatusCode : Nat
deriving DecidableEq, Repr

/-- The type `gsdk.CreateOrgOption` as built at lines 91-95. -/
structure gsdk.CreateOrgOption where
  Name : String
  Description : String
  Visibility : gsdk.VisibleType
deriving DecidableEq, Repr

/-- The two methods of `g.client` that `CreateAndGetOrg` calls.  Each returns
the triple (organization pointer, response pointer, error); a nil pointer and
a nil error are `none`. -/
structure gsdk.Client where
  GetOrg : String → Option gsdk.Organization × Option gsdk.Response × Option Error
  CreateOrg : gsdk.CreateOrgOption →
    Option gsdk.Organization × Option gsdk.Response × Option Error

/-- The type `migration.CreateOrgOption` (lines 77-81). -/
structure CreateOrgOption where
  Name : String
  Description : String
  Visibility : Bool
deriving DecidableEq, Repr

/-- A call made by `CreateAndGetOrg` on the SDK client. -/
inductive OrgCall where
  | GetOrg (orgname : String)
  | CreateOrg (opt : gsdk.CreateOrgOption)
deriving DecidableEq, Repr

/-- How `CreateAndGetOrg` ends: it returns `(org, err)` or it panics. -/
inductive OrgResult where
  | ret (org : Option gsdk.Organization) (err : Option Error)
  | panic (msg : String)
deriving DecidableEq, Repr

/-- The method `gitea.CreateAndGetOrg` (lines 84-104), with the calls it made.
Line 86 reads `reponse.StatusCode` before `err` is looked at: on a nil
`reponse` that read is a nil pointer dereference. -/
def CreateAndGetOrg (client : gsdk.Client) (opts : CreateOrgOption) : OrgResult × List OrgCall :=
  match client.GetOrg opts.Name with
  | (newOrg, reponse, err) =>
    match reponse with
    | none => (.panic "invalid memory address or nil pointer dereference", [.GetOrg opts.Name])
    | some resp =>
      if resp.StatusCode = http.StatusNotFound then
        let visible :=
          if !opts.Visibility then gsdk.VisibleType.VisibleTypePrivate
          else gsdk.VisibleType.VisibleTypePublic
        let createOpts : gsdk.CreateOrgOption :=
          { Name := opts.Name
            Description := opts.Description
            Visibility := visible }
        match client.CreateOrg createOpts with
        | (_, _, some err) => (.ret none (some err), [.GetOrg opts.Name, .CreateOrg createOpts])
        | (newOrg, _, none) => (.ret newOrg none, [.GetOrg opts.Name, .CreateOrg createOpts])
      else
        match err with
        | some err => (.ret none (some err), [.GetOrg opts.Name])
        | none => (.ret newOrg none, [.GetOrg opts.Name])

/-! ## Vocabulary of the statements -/

/-- The successful `GreateOrGetUser` event for one source user. -/
def okUser (toLower : String → String) (sourceID : Int) (u : User) : Event :=
  ⟨.GreateOrGetUser (userOpts toLower sourceID u), none⟩

/-- The members of a group in the snapshot (empty when resolution fails). -/
def members (src : Bitbucket) (name : String) : List User :=
  match src.GetUsersFromGroup name with
  | .ok us => us
  | .error _ => []

/-- The events of a direct-grant loop in which every call succeeds. -/
def userEvents (toLower : String → String) (sourceID : Int) (users : List UserPermission) :
    List Event :=
  users.map (fun up => okUser toLower sourceID up.User)

/-- The events of a group-grant loop in which every call succeeds. -/
def groupEvents (src : Bitbucket) (toLower : String → String) (sourceID : Int)
    (groups : List GroupPermission) : List Event :=
  groups.flatMap (fun g =>
    ⟨.GetUsersFromGroup g.Group.Name, none⟩ :: (members src g.Group.Name).map (okUser toLower sourceID))

/-- The lower-cased names of the direct grants at level `L`, one per grant, in
grant order. -/
def directNames (toLower : String → String) (L : String) (users : List UserPermission) :
    List String :=
  (users.filter (fun up => up.Permission = L)).map (fun up => toLower up.User.Name)

/-- The lower-cased names of the members of the groups granted level `L`, one
per (group grant, member) pair, in grant order. -/
def groupNames (src : Bitbucket) (toLower : String → String) (L : String)
    (groups : List GroupPermission) : List String :=
  (groups.filter (fun g => g.Permission = L)).flatMap
    (fun g => (members src g.Group.Name).map (fun u => toLower u.Name))

/-- Every event of the trace returned `nil`. -/
def AllOk (tr : List Event) : Prop := ∀ ev ∈ tr, ev.err = none

/-- The two provisioning calls `CreateNewOrg` and `MigrateNewRepo`. -/
def Call.isProvision : Call → Bool
  | .CreateNewOrg _ => true
  | .MigrateNewRepo _ => true
  | _ => false

/-- No provisioning call occurs in the trace. -/
def NoProvision (tr : List Event) : Prop := ∀ ev ∈ tr, ev.call.isProvision = false

/-- The run reached the Organization Provisioner: `CreateNewOrg` was called. -/
def ReachesOrg (r : Run) : Prop := ∃ o e, (⟨.CreateNewOrg o, e⟩ : Event) ∈ r.trace

/-- Shape of the events added by a loop that returned `r`: every call
succeeded, except the last one when the loop returned an error. -/
def Shape (r : Option Error) (d : List Event) : Prop :=
  match r with
  | none => AllOk d
  | some e => ∃ pre c, d = pre ++ [⟨c, some e⟩] ∧ AllOk pre

/-- The login `u` was provisioned: some `GreateOrGetUser` call with
`LoginName = u` succeeded. -/
def Provisioned (tr : List Event) (u : String) : Prop :=
  ∃ o, (⟨.GreateOrGetUser o, none⟩ : Event) ∈ tr ∧ o.LoginName = u

/-- The username `u` occurs in the table under some level. -/
def Named (perm : PermMap) (u : String) : Prop := ∃ L, u ∈ perm.get L

/-- The user `user` is referenced by the source: as a direct grantee or as
a member of a granted group, at project or at repository scope. -/
def SourceUser (src : Bitbucket) (f : Flags) (user : User) : Prop :=
  (∃ users, src.GetUsersPermissionFromProject f.projectKey = .ok users ∧
      ∃ up ∈ users, up.User = user) ∨
  (∃ groups, src.GetGroupsPermissionFromProject f.projectKey = .ok groups ∧
      ∃ g ∈ groups, ∃ us, src.GetUsersFromGroup g.Group.Name = .ok us ∧ user ∈ us) ∨
  (∃ groups, src.GetGroupsPermissionFromRepo f.projectKey f.repoSlug = .ok groups ∧
      ∃ g ∈ groups, ∃ us, src.GetUsersFromGroup g.Group.Name = .ok us ∧ user ∈ us) ∨
  (∃ users, src.GetUsersPermissionFromRepo f.projectKey f.repoSlug = .ok users ∧
      ∃ up ∈ users, up.User = user)

/-- A `GreateOrGetUser` event carries the option built from a source user. -/
def Origin (w : World) (f : Flags) (ev : Event) : Prop :=
  ∀ o, ev.call = .GreateOrGetUser o →
    ∃ m user, w.NewMigration = .ok m ∧ SourceUser m.Bitbucket f user ∧
      o = userOpts w.ToLower f.sourceID user

/-- State invariant of a run before provisioning: user calls come from source
users, no provisioning call was made, and the usernames in the two tables are
exactly the provisioned logins. -/
def Inv (w : World) (f : Flags) (pp rp : PermMap) (tr : List Event) : Prop :=
  (∀ ev ∈ tr, Origin w f ev) ∧ NoProvision tr ∧
    ∀ u, (Named pp u ∨ Named rp u) ↔ Provisioned tr u

/-- The trace ends with a call that returned `e`, all earlier calls succeeded. -/
def Failed (e : Error) (tr : List Event) : Prop :=
  ∃ pre c, tr = pre ++ [⟨c, some e⟩] ∧ AllOk pre

/-- The grants of one scope give `u` the level `L`: directly, or through a
group of which a user with lower-cased name `u` is a member. -/
def Granted (src : Bitbucket) (toLower : String → String) (users : List UserPermission)
    (groups : List GroupPermission) (L u : String) : Prop :=
  (∃ up ∈ users, up.Permission = L ∧ toLower up.User.Name = u) ∨
  (∃ g ∈ groups, g.Permission = L ∧
    ∃ us, src.GetUsersFromGroup g.Group.Name = .ok us ∧ ∃ x ∈ us, toLower x.Name = u)

/-- The trace of a run up to the provisioning steps when every call succeeds. -/
def preTrace (src : Bitbucket) (toLower : String → String) (f : Flags)
    (users : List UserPermission) (groups : List GroupPermission)
    (rgroups : List GroupPermission) (rusers : List UserPermission) : List Event :=
  [⟨.NewMigration, none⟩, ⟨.GetProject f.projectKey, none⟩,
      ⟨.GetUsersPermissionFromProject f.projectKey, none⟩] ++
    userEvents toLower f.sourceID users ++
    [⟨.GetGroupsPermissionFromProject f.projectKey, none⟩] ++
    groupEvents src toLower f.sourceID groups ++
    [⟨.GetRepo f.projectKey f.repoSlug, none⟩,
      ⟨.GetGroupsPermissionFromRepo f.projectKey f.repoSlug, none⟩] ++
    groupEvents src toLower f.sourceID rgroups ++
    [⟨.GetUsersPermissionFromRepo f.projectKey f.repoSlug, none⟩] ++
    userEvents toLower f.sourceID rusers

/-- The calls that only read: client construction and the source fetches. -/
def Call.isFetch : Call → Bool
  | .GreateOrGetUser _ => false
  | .CreateNewOrg _ => false
  | .MigrateNewRepo _ => false
  | _ => true

/-- The run ended with an error before the provisioning steps. -/
def EarlyFail (w : World) (f : Flags) (r : Run) : Prop :=
  ∃ e, r.exit = .err e ∧ Inv w f r.projectPermission r.repoPermission r.trace ∧
    (AllOk r.trace ∨ Failed e r.trace)

/-- The run reached the provisioning steps: every fetch and every loop
succeeded, and the run continues as `provision` on the two tables. -/
def ReachesProvision (w : World) (f : Flags) (r : Run) : Prop :=
  ∃ m org users groups repo rgroups rusers pp rp,
    w.NewMigration = .ok m ∧
    m.Bitbucket.GetProject f.projectKey = .ok org ∧
    m.Bitbucket.GetUsersPermissionFromProject f.projectKey = .ok users ∧
    m.Bitbucket.GetGroupsPermissionFromProject f.projectKey = .ok groups ∧
    m.Bitbucket.GetRepo f.projectKey f.repoSlug = .ok repo ∧
    m.Bitbucket.GetGroupsPermissionFromRepo f.projectKey f.repoSlug = .ok rgroups ∧
    m.Bitbucket.GetUsersPermissionFromRepo f.projectKey f.repoSlug = .ok rusers ∧
    (∀ L, pp.get L = directNames w.ToLower L users ++ groupNames m.Bitbucket w.ToLower L groups) ∧
    (∀ L, rp.get L = groupNames m.Bitbucket w.ToLower L rgroups ++ directNames w.ToLower L rusers) ∧
    Inv w f pp rp (preTrace m.Bitbucket w.ToLower f users groups rgroups rusers) ∧
    r = provision m f org repo pp rp (preTrace m.Bitbucket w.ToLower f users groups rgroups rusers)

/-- The owner name resolved at lines 182-184. -/
def ownerOf (f : Flags) (org : Project) : String :=
  if f.targetOwner = "" then org.Name else f.targetOwner

/-- The repository name resolved at lines 187-189. -/
def repoNameOf (f : Flags) (repo : Repository) : String :=
  if f.targetRepo = "" then repo.Name else f.targetRepo

/-- The option literal of lines 192-197. -/
def orgOptsOf (f : Flags) (org : Project) (pp : PermMap) : CreateNewOrgOption :=
  { Name := ownerOf f org
    Description := org.Description
    Public := org.Public
    Permission := pp }

/-- The option literal of lines 203-210, given the clone link it reads. -/
def repoOptsOf (f : Flags) (org : Project) (repo : Repository) (rp : PermMap)
    (link : CloneLink) : MigrateNewRepoOption :=
  { Owner := ownerOf f org
    Name := repoNameOf f repo
    CloneAddr := link.Href
    Description := repo.Description
    Private := !repo.Public
    Permission := rp }

/-- The exit of `RunE` after its last call returned `e`. -/
def exitOf : Option Error → Exit
  | none => .nil
  | some e => .err e

/-- The number of `GreateOrGetUser` calls of the trace whose `LoginName` is `u`. -/
def loginCalls (tr : List Event) (u : String) : Nat :=
  tr.countP (fun ev =>
    match ev.call with
    | .GreateOrGetUser o => decide (o.LoginName = u)
    | _ => false)

/-- The number of grant occurrences of the canonical login `u` at one scope:
one per direct grant and one per (group grant, member) pair whose lower-cased
user name is `u`. -/
def grantOccurrences (src : Bitbucket) (toLower : String → String)
    (users : List UserPermission) (groups : List GroupPermission) (u : String) : Nat :=
  users.countP (fun up => decide (toLower up.User.Name = u)) +
    (groups.map (fun g =>
      (members src g.Group.Name).countP (fun x => decide (toLower x.Name = u)))).sum

/-- The `CloneAddr` of every `MigrateNewRepo` call of the trace, in order. -/
def cloneAddrs (tr : List Event) : List String :=
  tr.filterMap (fun ev =>
    match ev.call with
    | .MigrateNewRepo o => some o.CloneAddr
    | _ => none)

/-! ## A concrete world: the scenario of the specification -/

/-- Lower-casing of ASCII letters; agrees with `strings.ToLower` on ASCII. -/
def asciiToLower (s : String) : String := String.mk (s.data.map Char.toLower)

/-- The users of the scenario. -/
def alice : User := ⟨"Alice", "Alice A", "alice@example.com"⟩

/-- Second user of the scenario. -/
def bob : User := ⟨"bob", "Bob B", "bob@example.com"⟩

/-- Third user of the scenario. -/
def carol : User := ⟨"carol", "Carol C", "carol@example.com"⟩

/-- Source snapshot of the scenario: project `ENG` with direct grant
(Alice, WRITE) and group `eng-team` = (bob, carol) granted ADMIN; repository
`svc` with direct grant (bob, READ) and clone links ssh, http. -/
def scenarioSource : Bitbucket :=
  { GetProject := fun k =>
      if k = "ENG" then .ok ⟨"ENG", "Engineering", true⟩ else .error "project not found"
    GetUsersPermissionFromProject := fun _ => .ok [⟨alice, "WRITE"⟩]
    GetGroupsPermissionFromProject := fun _ => .ok [⟨⟨"eng-team"⟩, "ADMIN"⟩]
    GetUsersFromGroup := fun g =>
      if g = "eng-team" then .ok [bob, carol] else .error "group not found"
    GetRepo := fun _ s =>
      if s = "svc" then
        .ok ⟨"svc", "Service", true,
          ⟨[⟨"ssh://git@bitbucket/eng/svc.git", "ssh"⟩, ⟨"https://bitbucket/scm/eng/svc.git", "http"⟩]⟩⟩
      else .error "repository not found"
    GetGroupsPermissionFromRepo := fun _ _ => .ok []
    GetUsersPermissionFromRepo := fun _ _ => .ok [⟨bob, "READ"⟩] }

/-- A target system on which every call succeeds. -/
def okMigration (src : Bitbucket) : Migration :=
  { Bitbucket := src
    Gitea := ⟨fun _ _ => none⟩
    CreateNewOrg := fun _ _ => none
    MigrateNewRepo := fun _ _ => none }

/-- The world of the scenario. -/
def scenarioWorld : World := ⟨.ok (okMigration scenarioSource), asciiToLower⟩

/-- Flags of the scenario: both target names left empty. -/
def scenarioFlags : Flags := ⟨"ENG", "svc", "", "", 7⟩

/-- A world in which client construction fails in `NewMigration`. -/
def failedConstruction : World := ⟨.error "mission gitea server or token", asciiToLower⟩

/-- Flags with an empty project key. -/
def emptyKeyFlags : Flags := ⟨"", "svc", "", "", 7⟩

/-- The scenario with the repository-permission fetch failing. -/
def repoFetchFailWorld : World :=
  ⟨.ok (okMigration { scenarioSource with
      GetUsersPermissionFromRepo := fun _ _ => .error "repository permissions unavailable" }),
    asciiToLower⟩

/-- The scenario with bob also granted ADMIN directly on the project, the
level he already has through `eng-team`. -/
def dupWorld : World :=
  ⟨.ok (okMigration { scenarioSource with
      GetUsersPermissionFromProject := fun _ => .ok [⟨alice, "WRITE"⟩, ⟨bob, "ADMIN"⟩] }),
    asciiToLower⟩

/-- The repository of the scenario with the http link first. -/
def httpFirstRepo : Repository :=
  ⟨"svc", "Service", true,
    ⟨[⟨"https://bitbucket/scm/eng/svc.git", "http"⟩, ⟨"ssh://git@bitbucket/eng/svc.git", "ssh"⟩]⟩⟩

/-- The scenario with the clone links in the order http, ssh. -/
def httpFirstWorld : World :=
  ⟨.ok (okMigration { scenarioSource with GetRepo := fun _ _ => .ok httpFirstRepo }),
    asciiToLower⟩

/-- The repository of the scenario with the http link only. -/
def singleLinkRepo : Repository :=
  ⟨"svc", "Service", true, ⟨[⟨"https://bitbucket/scm/eng/svc.git", "http"⟩]⟩⟩

/-- The scenario with a single clone link. -/
def singleLinkWorld : World :=
  ⟨.ok (okMigration { scenarioSource with GetRepo := fun _ _ => .ok singleLinkRepo }),
    asciiToLower⟩

/-- The organization `ENG` as stored on the target. -/
def engOrg : gsdk.Organization := ⟨1, "ENG", "", "Engineering", "public"⟩

/-- A target without the organization: the lookup answers 404 with the SDK
error for that status, the creation succeeds. -/
def absentClient : gsdk.Client :=
  { GetOrg := fun _ => (some ⟨0, "", "", "", ""⟩, some ⟨404⟩, some "404 Not Found")
    CreateOrg := fun o => (some ⟨1, o.Name, "", o.Description, "public"⟩, some ⟨201⟩, none) }

/-- A target that already holds the organization. -/
def presentClient : gsdk.Client :=
  { GetOrg := fun _ => (some engOrg, some ⟨200⟩, none)
    CreateOrg := fun _ => (none, some ⟨422⟩, some "user already exists") }

/-- A target that cannot be reached: the lookup returns an error and no HTTP
response. -/
def unreachableClient : gsdk.Client :=
  { GetOrg := fun _ => (none, none, some "dial tcp: connection refused")
    CreateOrg := fun _ => (none, none, some "dial tcp: connection refused") }

/-- The option of the scenario for `CreateAndGetOrg`. -/
def engOpts : CreateOrgOption := ⟨"ENG", "Engineering", true⟩

/-! ## Lemmas on `map[string][]string` -/

theorem PermMap.get_set (m : PermMap) (k k2 : String) (v : List String) :
    (m.set k v).get k2 = if k = k2 then v else m.get k2 := by
  induction m with
  | nil => simp [PermMap.set, PermMap.get]
  | cons kv m ih =>
    obtain ⟨k', v'⟩ := kv
    by_cases h : k' = k
    · subst h
      by_cases h2 : k' = k2 <;> simp [PermMap.set, PermMap.get, h2]
    · by_cases h2 : k' = k2
      · subst h2
        have : ¬ k = k' := fun h3 => h h3.symm
        simp [PermMap.set, PermMap.get, h, this]
      · simp [PermMap.set, PermMap.get, h, h2, ih]

theorem PermMap.get_append (m : PermMap) (k k2 x : String) :
    (m.append k x).get k2 = m.get k2 ++ (if k = k2 then [x] else []) := by
  unfold PermMap.append
  rw [PermMap.get_set]
  by_cases h : k = k2 <;> simp [h]

theorem Named_append (m : PermMap) (k x u : String) :
    Named (m.append k x) u ↔ Named m u ∨ u = x := by
  constructor
  · rintro ⟨L, hL⟩
    rw [PermMap.get_append] at hL
    rcases List.mem_append.1 hL with h | h
    · exact Or.inl ⟨L, h⟩
    · by_cases hk : k = L
      · simp [hk] at h; exact Or.inr h
      · simp [hk] at h
  · rintro (⟨L, hL⟩ | rfl)
    · exact ⟨L, by rw [PermMap.get_append]; exact List.mem_append.2 (Or.inl hL)⟩
    · exact ⟨k, by rw [PermMap.get_append]; simp⟩

theorem Named_nil (u : String) : ¬ Named [] u := by
  rintro ⟨L, hL⟩
  simp [PermMap.get] at hL

/-! ## Lemmas on traces -/

theorem AllOk_nil : AllOk [] := by
  intro ev h; simp at h

theorem AllOk_append {a b : List Event} : AllOk (a ++ b) ↔ AllOk a ∧ AllOk b := by
  simp only [AllOk, List.mem_append]
  constructor
  · intro h; exact ⟨fun ev he => h ev (Or.inl he), fun ev he => h ev (Or.inr he)⟩
  · rintro ⟨h1, h2⟩ ev (he | he)
    · exact h1 ev he
    · exact h2 ev he

theorem AllOk_single (c : Call) : AllOk [⟨c, none⟩] := by
  intro ev h; simp at h; simp [h]

theorem Provisioned_append (a b : List Event) (u : String) :
    Provisioned (a ++ b) u ↔ Provisioned a u ∨ Provisioned b u := by
  simp only [Provisioned, List.mem_append]
  constructor
  · rintro ⟨o, h | h, ho⟩
    · exact Or.inl ⟨o, h, ho⟩
    · exact Or.inr ⟨o, h, ho⟩
  · rintro (⟨o, h, ho⟩ | ⟨o, h, ho⟩)
    · exact ⟨o, Or.inl h, ho⟩
    · exact ⟨o, Or.inr h, ho⟩

theorem Provisioned_nil (u : String) : ¬ Provisioned [] u := by
  rintro ⟨o, h, _⟩; simp at h

theorem Provisioned_failed (c : Call) (e : Error) (u : String) :
    ¬ Provisioned [⟨c, some e⟩] u := by
  rintro ⟨o, h, _⟩; simp at h

theorem Shape_cons_ok (c : Call) {r : Option Error} {d : List Event} (h : Shape r d) :
    Shape r (⟨c, none⟩ :: d) := by
  cases r with
  | none =>
    intro ev hev
    rcases List.mem_cons.1 hev with rfl | h2
    · rfl
    · exact h ev h2
  | some e =>
    obtain ⟨pre, c2, rfl, hpre⟩ := h
    refine ⟨⟨c, none⟩ :: pre, c2, by simp, ?_⟩
    intro ev hev
    rcases List.mem_cons.1 hev with rfl | h2
    · rfl
    · exact hpre ev h2

theorem Shape_append_ok {r : Option Error} {a d : List Event} (ha : AllOk a) (h : Shape r d) :
    Shape r (a ++ d) := by
  cases r with
  | none => exact AllOk_append.2 ⟨ha, h⟩
  | some e =>
    obtain ⟨pre, c2, rfl, hpre⟩ := h
    exact ⟨a ++ pre, c2, by simp, AllOk_append.2 ⟨ha, hpre⟩⟩

theorem Shape_fail (c : Call) (e : Error) : Shape (some e) [⟨c, some e⟩] :=
  ⟨[], c, by simp, AllOk_nil⟩

/-! ## The loops -/

/-- What a direct-grant loop adds to the trace and to the table, whatever it
returns. -/
theorem userLoop_spec (g : Gitea) (tl : String → String) (sid : Int) :
    ∀ (users : List UserPermission) (perm : PermMap) (tr : List Event) (r : Option Error)
      (perm' : PermMap) (tr' : List Event),
      userLoop g tl sid users perm tr = (r, perm', tr') →
      ∃ d, tr' = tr ++ d ∧
        (∀ ev ∈ d, ∃ up ∈ users, ev.call = .GreateOrGetUser (userOpts tl sid up.User)) ∧
        Shape r d ∧ ∀ u, Named perm' u ↔ Named perm u ∨ Provisioned d u := by
  intro users
  induction users with
  | nil =>
    intro perm tr r perm' tr' h
    simp only [userLoop, Prod.mk.injEq] at h
    obtain ⟨rfl, rfl, rfl⟩ := h
    exact ⟨[], by simp, by simp, AllOk_nil, fun u => by simp [Provisioned_nil]⟩
  | cons up users ih =>
    intro perm tr r perm' tr' h
    unfold userLoop at h
    split at h
    · rename_i e he
      simp only [Prod.mk.injEq] at h
      obtain ⟨rfl, rfl, rfl⟩ := h
      refine ⟨[⟨.GreateOrGetUser (userOpts tl sid up.User), some e⟩], rfl, ?_, Shape_fail _ _, ?_⟩
      · intro ev hev
        simp only [List.mem_singleton] at hev
        subst hev
        exact ⟨up, by simp, rfl⟩
      · intro u; simp [Provisioned_failed]
    · obtain ⟨d, hd, horig, hshape, hnames⟩ := ih _ _ _ _ _ h
      refine ⟨⟨.GreateOrGetUser (userOpts tl sid up.User), none⟩ :: d, by simp [hd], ?_,
        Shape_cons_ok _ hshape, ?_⟩
      · intro ev hev
        rcases List.mem_cons.1 hev with rfl | h2
        · exact ⟨up, by simp, rfl⟩
        · obtain ⟨up2, hup2, h3⟩ := horig ev h2
          exact ⟨up2, List.mem_cons_of_mem _ hup2, h3⟩
      · intro u
        rw [hnames u, Named_append]
        have hp : Provisioned (⟨.GreateOrGetUser (userOpts tl sid up.User), none⟩ :: d) u ↔
            u = tl up.User.Name ∨ Provisioned d u := by
          rw [show (⟨.GreateOrGetUser (userOpts tl sid up.User), none⟩ :: d : List Event) =
            [⟨.GreateOrGetUser (userOpts tl sid up.User), none⟩] ++ d from rfl, Provisioned_append]
          have : Provisioned [(⟨.GreateOrGetUser (userOpts tl sid up.User), none⟩ : Event)] u ↔
              u = tl up.User.Name := by
            constructor
            · rintro ⟨o, ho, rfl⟩
              simp at ho
              subst ho
              rfl
            · rintro rfl
              exact ⟨userOpts tl sid up.User, by simp, rfl⟩
          rw [this]
        rw [hp]
        tauto

/-- When a direct-grant loop returns `nil`: the exact events and table. -/
theorem userLoop_ok (g : Gitea) (tl : String → String) (sid : Int) :
    ∀ (users : List UserPermission) (perm : PermMap) (tr : List Event) (perm' : PermMap)
      (tr' : List Event),
      userLoop g tl sid users perm tr = (none, perm', tr') →
      tr' = tr ++ userEvents tl sid users ∧
      ∀ L, perm'.get L = perm.get L ++ directNames tl L users := by
  intro users
  induction users with
  | nil =>
    intro perm tr perm' tr' h
    simp [userLoop] at h
    obtain ⟨rfl, rfl⟩ := h
    simp [userEvents, directNames]
  | cons up users ih =>
    intro perm tr perm' tr' h
    unfold userLoop at h
    split at h
    · simp at h
    · obtain ⟨h1, h2⟩ := ih _ _ _ _ h
      refine ⟨?_, ?_⟩
      · rw [h1]; simp [userEvents, okUser]
      · intro L
        rw [h2 L, PermMap.get_append]
        by_cases hL : up.Permission = L <;> simp [directNames, List.filter_cons, hL]

/-- The member loop is the direct-grant loop on the members tagged with the
permission of the group. -/
theorem memberLoop_eq (g : Gitea) (tl : String → String) (sid : Int) (p : String) :
    ∀ (users : List User) (perm : PermMap) (tr : List Event),
      memberLoop g tl sid p users perm tr =
        userLoop g tl sid (users.map (fun u => ⟨u, p⟩)) perm tr := by
  intro users
  induction users with
  | nil => intro perm tr; simp [memberLoop, userLoop]
  | cons u users ih =>
    intro perm tr
    simp only [memberLoop, userLoop, List.map_cons]
    split
    · rfl
    · exact ih _ _


/-- What a member loop adds to the trace and to the table. -/
theorem memberLoop_spec (g : Gitea) (tl : String → String) (sid : Int) (p : String)
    (users : List User) (perm : PermMap) (tr : List Event) (r : Option Error)
    (perm' : PermMap) (tr' : List Event)
    (h : memberLoop g tl sid p users perm tr = (r, perm', tr')) :
    ∃ d, tr' = tr ++ d ∧
      (∀ ev ∈ d, ∃ u ∈ users, ev.call = .GreateOrGetUser (userOpts tl sid u)) ∧
      Shape r d ∧ ∀ u, Named perm' u ↔ Named perm u ∨ Provisioned d u := by
  rw [memberLoop_eq] at h
  obtain ⟨d, hd, horig, hrest⟩ := userLoop_spec g tl sid _ _ _ _ _ _ h
  refine ⟨d, hd, ?_, hrest⟩
  intro ev hev
  obtain ⟨up, hup, hc⟩ := horig ev hev
  obtain ⟨u, hu, rfl⟩ := List.mem_map.1 hup
  exact ⟨u, hu, hc⟩

/-- When a member loop returns `nil`: the exact events and table. -/
theorem memberLoop_ok (g : Gitea) (tl : String → String) (sid : Int) (p : String)
    (users : List User) (perm : PermMap) (tr : List Event) (perm' : PermMap) (tr' : List Event)
    (h : memberLoop g tl sid p users perm tr = (none, perm', tr')) :
    tr' = tr ++ users.map (okUser tl sid) ∧
      ∀ L, perm'.get L = perm.get L ++ (if p = L then users.map (fun u => tl u.Name) else []) := by
  rw [memberLoop_eq] at h
  obtain ⟨h1, h2⟩ := userLoop_ok g tl sid _ _ _ _ _ h
  refine ⟨?_, ?_⟩
  · rw [h1]; simp [userEvents, Function.comp_def]
  · intro L
    rw [h2 L]
    by_cases hL : p = L <;> simp [directNames, List.filter_map, Function.comp_def, hL]

/-- What a group-grant loop adds to the trace and to the table, whatever it
returns. -/
theorem groupLoop_spec (m : Migration) (tl : String → String) (sid : Int) :
    ∀ (groups : List GroupPermission) (perm : PermMap) (tr : List Event) (r : Option Error)
      (perm' : PermMap) (tr' : List Event),
      groupLoop m tl sid groups perm tr = (r, perm', tr') →
      ∃ d, tr' = tr ++ d ∧
        (∀ ev ∈ d, (∃ name, ev.call = .GetUsersFromGroup name) ∨
          ∃ g ∈ groups, ∃ us, m.Bitbucket.GetUsersFromGroup g.Group.Name = .ok us ∧
            ∃ u ∈ us, ev.call = .GreateOrGetUser (userOpts tl sid u)) ∧
        Shape r d ∧ ∀ u, Named perm' u ↔ Named perm u ∨ Provisioned d u := by
  intro groups
  induction groups with
  | nil =>
    intro perm tr r perm' tr' h
    simp only [groupLoop, Prod.mk.injEq] at h
    obtain ⟨rfl, rfl, rfl⟩ := h
    exact ⟨[], by simp, by simp, AllOk_nil, fun u => by simp [Provisioned_nil]⟩
  | cons grp groups ih =>
    intro perm tr r perm' tr' h
    unfold groupLoop at h
    split at h
    · rename_i e he
      simp only [Prod.mk.injEq] at h
      obtain ⟨rfl, rfl, rfl⟩ := h
      refine ⟨[⟨.GetUsersFromGroup grp.Group.Name, some e⟩], rfl, ?_, Shape_fail _ _, ?_⟩
      · intro ev hev
        simp only [List.mem_singleton] at hev
        subst hev
        exact Or.inl ⟨_, rfl⟩
      · intro u; simp [Provisioned_failed]
    · rename_i us hus
      generalize hml : memberLoop m.Gitea tl sid grp.Permission us perm
        (tr ++ [⟨.GetUsersFromGroup grp.Group.Name, none⟩]) = res at h
      obtain ⟨r1, p1, t1⟩ := res
      obtain ⟨d1, hd1, horig1, hshape1, hnames1⟩ := memberLoop_spec _ _ _ _ _ _ _ _ _ _ hml
      have hfirst : ∀ u, ¬ Provisioned [(⟨.GetUsersFromGroup grp.Group.Name, none⟩ : Event)] u := by
        rintro u ⟨o, ho, _⟩
        simp at ho
      have horig1' : ∀ ev ∈ (⟨.GetUsersFromGroup grp.Group.Name, none⟩ : Event) :: d1,
          (∃ name, ev.call = .GetUsersFromGroup name) ∨
          ∃ g ∈ grp :: groups, ∃ us, m.Bitbucket.GetUsersFromGroup g.Group.Name = .ok us ∧
            ∃ u ∈ us, ev.call = .GreateOrGetUser (userOpts tl sid u) := by
        intro ev hev
        rcases List.mem_cons.1 hev with rfl | h2
        · exact Or.inl ⟨_, rfl⟩
        · obtain ⟨u, hu, hc⟩ := horig1 ev h2
          exact Or.inr ⟨grp, by simp, us, hus, u, hu, hc⟩
      cases r1 with
      | some e =>
        simp only [Prod.mk.injEq] at h
        obtain ⟨rfl, rfl, rfl⟩ := h
        refine ⟨⟨.GetUsersFromGroup grp.Group.Name, none⟩ :: d1, by simp [hd1], horig1',
          Shape_cons_ok _ hshape1, ?_⟩
        intro u
        rw [hnames1 u, show ((⟨.GetUsersFromGroup grp.Group.Name, none⟩ : Event) :: d1) =
          [⟨.GetUsersFromGroup grp.Group.Name, none⟩] ++ d1 from rfl, Provisioned_append]
        have := hfirst u
        tauto
      | none =>
        simp only at h
        obtain ⟨d2, hd2, horig2, hshape2, hnames2⟩ := ih _ _ _ _ _ h
        refine ⟨(⟨.GetUsersFromGroup grp.Group.Name, none⟩ :: d1) ++ d2, by simp [hd2, hd1], ?_,
          Shape_append_ok ?_ hshape2, ?_⟩
        · intro ev hev
          rcases List.mem_append.1 hev with h1 | h2
          · exact horig1' ev h1
          · rcases horig2 ev h2 with h3 | ⟨g, hg, h3⟩
            · exact Or.inl h3
            · exact Or.inr ⟨g, List.mem_cons_of_mem _ hg, h3⟩
        · exact Shape_cons_ok _ hshape1
        · intro u
          rw [hnames2 u, hnames1 u, Provisioned_append,
            show ((⟨.GetUsersFromGroup grp.Group.Name, none⟩ : Event) :: d1) =
              [⟨.GetUsersFromGroup grp.Group.Name, none⟩] ++ d1 from rfl, Provisioned_append]
          have := hfirst u
          tauto

/-- When a group-grant loop returns `nil`: every group was resolved, and the
exact events and table. -/
theorem groupLoop_ok (m : Migration) (tl : String → String) (sid : Int) :
    ∀ (groups : List GroupPermission) (perm : PermMap) (tr : List Event) (perm' : PermMap)
      (tr' : List Event),
      groupLoop m tl sid groups perm tr = (none, perm', tr') →
      tr' = tr ++ groupEvents m.Bitbucket tl sid groups ∧
      ∀ L, perm'.get L = perm.get L ++ groupNames m.Bitbucket tl L groups := by
  intro groups
  induction groups with
  | nil =>
    intro perm tr perm' tr' h
    simp [groupLoop] at h
    obtain ⟨rfl, rfl⟩ := h
    simp [groupEvents, groupNames]
  | cons grp groups ih =>
    intro perm tr perm' tr' h
    unfold groupLoop at h
    split at h
    · simp at h
    · rename_i us hus
      generalize hml : memberLoop m.Gitea tl sid grp.Permission us perm
        (tr ++ [⟨.GetUsersFromGroup grp.Group.Name, none⟩]) = res at h
      obtain ⟨r1, p1, t1⟩ := res
      cases r1 with
      | some e => simp at h
      | none =>
        simp only at h
        obtain ⟨ht1, hp1⟩ := memberLoop_ok _ _ _ _ _ _ _ _ _ hml
        obtain ⟨h1, h2⟩ := ih _ _ _ _ h
        have hmem : members m.Bitbucket grp.Group.Name = us := by simp [members, hus]
        refine ⟨?_, ?_⟩
        · rw [h1, ht1]; simp [groupEvents, hmem]
        · intro L
          rw [h2 L, hp1 L]
          by_cases hL : grp.Permission = L <;>
            simp [groupNames, List.filter_cons, hL, hmem]

/-! ## The invariant along a run -/

theorem Inv_extend {w : World} {f : Flags} {pp rp pp' rp' : PermMap} {tr d : List Event}
    (h : Inv w f pp rp tr)
    (hd : ∀ ev ∈ d, Origin w f ev ∧ ev.call.isProvision = false)
    (hn : ∀ u, (Named pp' u ∨ Named rp' u) ↔ (Named pp u ∨ Named rp u) ∨ Provisioned d u) :
    Inv w f pp' rp' (tr ++ d) := by
  obtain ⟨h1, h2, h3⟩ := h
  refine ⟨?_, ?_, ?_⟩
  · intro ev hev
    rcases List.mem_append.1 hev with h | h
    · exact h1 ev h
    · exact (hd ev h).1
  · intro ev hev
    rcases List.mem_append.1 hev with h | h
    · exact h2 ev h
    · exact (hd ev h).2
  · intro u
    rw [hn u, Provisioned_append, h3 u]

theorem Inv_fetch {w : World} {f : Flags} {pp rp : PermMap} {tr d : List Event}
    (h : Inv w f pp rp tr) (hd : ∀ ev ∈ d, ev.call.isFetch = true) :
    Inv w f pp rp (tr ++ d) := by
  refine Inv_extend h ?_ ?_
  · intro ev hev
    have := hd ev hev
    refine ⟨?_, ?_⟩
    · intro o ho
      rw [ho] at this
      simp [Call.isFetch] at this
    · cases hc : ev.call <;> simp [hc, Call.isFetch] at this <;> simp [Call.isProvision]
  · intro u
    have : ¬ Provisioned d u := by
      rintro ⟨o, ho, _⟩
      have := hd _ ho
      simp [Call.isFetch] at this
    tauto

theorem Inv_init (w : World) (f : Flags) (e : Option Error) :
    Inv w f [] [] [⟨.NewMigration, e⟩] := by
  have h0 : Inv w f [] [] [] := by
    refine ⟨by simp, by simp [NoProvision], ?_⟩
    intro u
    simp [Named_nil, Provisioned_nil]
  have := @Inv_fetch w f [] [] [] [⟨.NewMigration, e⟩] h0 (by simp [Call.isFetch])
  simpa using this

theorem Failed_of_shape {e : Error} {tr d : List Event} (hok : AllOk tr)
    (h : Shape (some e) d) : Failed e (tr ++ d) := by
  obtain ⟨pre, c, rfl, hpre⟩ := h
  exact ⟨tr ++ pre, c, by simp, AllOk_append.2 ⟨hok, hpre⟩⟩

theorem Origin_user {w : World} {f : Flags} {m : Migration} (hm : w.NewMigration = .ok m)
    {user : User} (hs : SourceUser m.Bitbucket f user) {ev : Event}
    (hc : ev.call = .GreateOrGetUser (userOpts w.ToLower f.sourceID user)) :
    Origin w f ev ∧ ev.call.isProvision = false := by
  refine ⟨?_, by simp [hc, Call.isProvision]⟩
  intro o ho
  rw [hc] at ho
  injection ho with ho
  exact ⟨m, user, hm, hs, ho.symm⟩

theorem Origin_group {w : World} {f : Flags} {m : Migration} (hm : w.NewMigration = .ok m)
    {groups : List GroupPermission}
    (hs : ∀ g ∈ groups, ∀ us, m.Bitbucket.GetUsersFromGroup g.Group.Name = .ok us →
      ∀ u ∈ us, SourceUser m.Bitbucket f u) {ev : Event}
    (hc : (∃ name, ev.call = .GetUsersFromGroup name) ∨
      ∃ g ∈ groups, ∃ us, m.Bitbucket.GetUsersFromGroup g.Group.Name = .ok us ∧
        ∃ u ∈ us, ev.call = .GreateOrGetUser (userOpts w.ToLower f.sourceID u)) :
    Origin w f ev ∧ ev.call.isProvision = false := by
  rcases hc with ⟨name, hc⟩ | ⟨g, hg, us, hus, u, hu, hc⟩
  · refine ⟨?_, by simp [hc, Call.isProvision]⟩
    intro o ho
    rw [hc] at ho
    cases ho
  · exact Origin_user hm (hs g hg us hus u hu) hc

/-- Lines 113-179: either the run fails there, or it goes on to `provision`
with the repository table described exactly. -/
theorem repoScope_cases {w : World} {f : Flags} {m : Migration} (hm : w.NewMigration = .ok m)
    (org : Project) {pp : PermMap} {tr : List Event} (hinv : Inv w f pp [] tr) (hok : AllOk tr) :
    EarlyFail w f (repoScope m w.ToLower f org pp tr) ∨
    ∃ repo rgroups rusers rp,
      m.Bitbucket.GetRepo f.projectKey f.repoSlug = .ok repo ∧
      m.Bitbucket.GetGroupsPermissionFromRepo f.projectKey f.repoSlug = .ok rgroups ∧
      m.Bitbucket.GetUsersPermissionFromRepo f.projectKey f.repoSlug = .ok rusers ∧
      (∀ L, rp.get L = groupNames m.Bitbucket w.ToLower L rgroups ++
        directNames w.ToLower L rusers) ∧
      Inv w f pp rp (tr ++ ([⟨.GetRepo f.projectKey f.repoSlug, none⟩,
          ⟨.GetGroupsPermissionFromRepo f.projectKey f.repoSlug, none⟩] ++
        groupEvents m.Bitbucket w.ToLower f.sourceID rgroups ++
        [⟨.GetUsersPermissionFromRepo f.projectKey f.repoSlug, none⟩] ++
        userEvents w.ToLower f.sourceID rusers)) ∧
      AllOk (tr ++ ([⟨.GetRepo f.projectKey f.repoSlug, none⟩,
          ⟨.GetGroupsPermissionFromRepo f.projectKey f.repoSlug, none⟩] ++
        groupEvents m.Bitbucket w.ToLower f.sourceID rgroups ++
        [⟨.GetUsersPermissionFromRepo f.projectKey f.repoSlug, none⟩] ++
        userEvents w.ToLower f.sourceID rusers)) ∧
      repoScope m w.ToLower f org pp tr = provision m f org repo pp rp
        (tr ++ ([⟨.GetRepo f.projectKey f.repoSlug, none⟩,
          ⟨.GetGroupsPermissionFromRepo f.projectKey f.repoSlug, none⟩] ++
        groupEvents m.Bitbucket w.ToLower f.sourceID rgroups ++
        [⟨.GetUsersPermissionFromRepo f.projectKey f.repoSlug, none⟩] ++
        userEvents w.ToLower f.sourceID rusers)) := by
  unfold repoScope
  split
  · -- GetRepo fails
    rename_i e he
    left
    exact ⟨e, rfl, Inv_fetch hinv (by simp [Call.isFetch]), Or.inr ⟨tr, _, rfl, hok⟩⟩
  · rename_i repo hrepo
    split
    · -- GetGroupsPermissionFromRepo fails
      rename_i e he
      left
      refine ⟨e, rfl, Inv_fetch hinv (by simp [Call.isFetch]), Or.inr ?_⟩
      exact ⟨tr ++ [⟨.GetRepo f.projectKey f.repoSlug, none⟩],
        .GetGroupsPermissionFromRepo f.projectKey f.repoSlug, by simp,
        AllOk_append.2 ⟨hok, AllOk_single _⟩⟩
    · rename_i rgroups hrgroups
      have hinv1 : Inv w f pp [] (tr ++ [⟨.GetRepo f.projectKey f.repoSlug, none⟩,
          ⟨.GetGroupsPermissionFromRepo f.projectKey f.repoSlug, none⟩]) :=
        Inv_fetch hinv (by simp [Call.isFetch])
      have hok1 : AllOk (tr ++ [⟨.GetRepo f.projectKey f.repoSlug, none⟩,
          ⟨.GetGroupsPermissionFromRepo f.projectKey f.repoSlug, none⟩]) := by
        refine AllOk_append.2 ⟨hok, ?_⟩
        intro ev hev
        simp at hev
        rcases hev with rfl | rfl <;> rfl
      generalize hgl : groupLoop m w.ToLower f.sourceID rgroups []
        (tr ++ [⟨.GetRepo f.projectKey f.repoSlug, none⟩,
          ⟨.GetGroupsPermissionFromRepo f.projectKey f.repoSlug, none⟩]) = res
      obtain ⟨r1, rp1, tr1⟩ := res
      obtain ⟨d1, hd1, horig1, hshape1, hnames1⟩ := groupLoop_spec _ _ _ _ _ _ _ _ _ hgl
      have hsrc1 : ∀ g ∈ rgroups, ∀ us, m.Bitbucket.GetUsersFromGroup g.Group.Name = .ok us →
          ∀ u ∈ us, SourceUser m.Bitbucket f u := fun g hg us hus u hu =>
        Or.inr (Or.inr (Or.inl ⟨rgroups, hrgroups, g, hg, us, hus, hu⟩))
      have hinv2 : Inv w f pp rp1 tr1 := by
        rw [hd1]
        refine Inv_extend hinv1 (fun ev hev => Origin_group hm hsrc1 (horig1 ev hev)) ?_
        intro u
        rw [hnames1 u]
        tauto
      cases r1 with
      | some e =>
        left
        exact ⟨e, rfl, hinv2, Or.inr (by rw [hd1]; exact Failed_of_shape hok1 hshape1)⟩
      | none =>
        simp only
        have hok2 : AllOk tr1 := by rw [hd1]; exact AllOk_append.2 ⟨hok1, hshape1⟩
        obtain ⟨htr1, hget1⟩ := groupLoop_ok _ _ _ _ _ _ _ _ hgl
        split
        · -- GetUsersPermissionFromRepo fails
          rename_i e he
          left
          exact ⟨e, rfl, Inv_fetch hinv2 (by simp [Call.isFetch]), Or.inr ⟨tr1, _, rfl, hok2⟩⟩
        · rename_i rusers hrusers
          have hinv3 : Inv w f pp rp1
              (tr1 ++ [⟨.GetUsersPermissionFromRepo f.projectKey f.repoSlug, none⟩]) :=
            Inv_fetch hinv2 (by simp [Call.isFetch])
          have hok3 : AllOk (tr1 ++ [⟨.GetUsersPermissionFromRepo f.projectKey f.repoSlug, none⟩]) :=
            AllOk_append.2 ⟨hok2, AllOk_single _⟩
          generalize hul : userLoop m.Gitea w.ToLower f.sourceID rusers rp1
            (tr1 ++ [⟨.GetUsersPermissionFromRepo f.projectKey f.repoSlug, none⟩]) = res
          obtain ⟨r2, rp2, tr2⟩ := res
          obtain ⟨d2, hd2, horig2, hshape2, hnames2⟩ := userLoop_spec _ _ _ _ _ _ _ _ _ hul
          have hinv4 : Inv w f pp rp2 tr2 := by
            rw [hd2]
            refine Inv_extend hinv3 ?_ ?_
            · intro ev hev
              obtain ⟨up, hup, hc⟩ := horig2 ev hev
              exact Origin_user hm
                (Or.inr (Or.inr (Or.inr ⟨rusers, hrusers, up, hup, rfl⟩))) hc
            · intro u
              rw [hnames2 u]
              tauto
          cases r2 with
          | some e =>
            left
            exact ⟨e, rfl, hinv4, Or.inr (by rw [hd2]; exact Failed_of_shape hok3 hshape2)⟩
          | none =>
            simp only
            right
            obtain ⟨htr2, hget2⟩ := userLoop_ok _ _ _ _ _ _ _ _ hul
            have htr : tr2 = tr ++ ([⟨.GetRepo f.projectKey f.repoSlug, none⟩,
                ⟨.GetGroupsPermissionFromRepo f.projectKey f.repoSlug, none⟩] ++
                groupEvents m.Bitbucket w.ToLower f.sourceID rgroups ++
                [⟨.GetUsersPermissionFromRepo f.projectKey f.repoSlug, none⟩] ++
                userEvents w.ToLower f.sourceID rusers) := by
              rw [htr2, htr1]; simp
            refine ⟨repo, rgroups, rusers, rp2, hrepo, hrgroups, hrusers, ?_, ?_, ?_, ?_⟩
            · intro L
              rw [hget2 L, hget1 L]
              simp [PermMap.get]
            · rw [← htr]; exact hinv4
            · rw [← htr, hd2]; exact AllOk_append.2 ⟨hok3, hshape2⟩
            · rw [← htr]

/-- Lines 45-179: either the run fails there, or it goes on to `provision`
with both tables described exactly. -/
theorem projectScope_cases {w : World} {f : Flags} {m : Migration}
    (hm : w.NewMigration = .ok m) {tr : List Event} (hinv : Inv w f [] [] tr) (hok : AllOk tr) :
    EarlyFail w f (projectScope m w.ToLower f tr) ∨
    ∃ org users groups repo rgroups rusers pp rp,
      m.Bitbucket.GetProject f.projectKey = .ok org ∧
      m.Bitbucket.GetUsersPermissionFromProject f.projectKey = .ok users ∧
      m.Bitbucket.GetGroupsPermissionFromProject f.projectKey = .ok groups ∧
      m.Bitbucket.GetRepo f.projectKey f.repoSlug = .ok repo ∧
      m.Bitbucket.GetGroupsPermissionFromRepo f.projectKey f.repoSlug = .ok rgroups ∧
      m.Bitbucket.GetUsersPermissionFromRepo f.projectKey f.repoSlug = .ok rusers ∧
      (∀ L, pp.get L = directNames w.ToLower L users ++
        groupNames m.Bitbucket w.ToLower L groups) ∧
      (∀ L, rp.get L = groupNames m.Bitbucket w.ToLower L rgroups ++
        directNames w.ToLower L rusers) ∧
      Inv w f pp rp (tr ++ ([⟨.GetProject f.projectKey, none⟩,
          ⟨.GetUsersPermissionFromProject f.projectKey, none⟩] ++
        userEvents w.ToLower f.sourceID users ++
        [⟨.GetGroupsPermissionFromProject f.projectKey, none⟩] ++
        groupEvents m.Bitbucket w.ToLower f.sourceID groups ++
        ([⟨.GetRepo f.projectKey f.repoSlug, none⟩,
          ⟨.GetGroupsPermissionFromRepo f.projectKey f.repoSlug, none⟩] ++
        groupEvents m.Bitbucket w.ToLower f.sourceID rgroups ++
        [⟨.GetUsersPermissionFromRepo f.projectKey f.repoSlug, none⟩] ++
        userEvents w.ToLower f.sourceID rusers))) ∧
      AllOk (tr ++ ([⟨.GetProject f.projectKey, none⟩,
          ⟨.GetUsersPermissionFromProject f.projectKey, none⟩] ++
        userEvents w.ToLower f.sourceID users ++
        [⟨.GetGroupsPermissionFromProject f.projectKey, none⟩] ++
        groupEvents m.Bitbucket w.ToLower f.sourceID groups ++
        ([⟨.GetRepo f.projectKey f.repoSlug, none⟩,
          ⟨.GetGroupsPermissionFromRepo f.projectKey f.repoSlug, none⟩] ++
        groupEvents m.Bitbucket w.ToLower f.sourceID rgroups ++
        [⟨.GetUsersPermissionFromRepo f.projectKey f.repoSlug, none⟩] ++
        userEvents w.ToLower f.sourceID rusers))) ∧
      projectScope m w.ToLower f tr = provision m f org repo pp rp
        (tr ++ ([⟨.GetProject f.projectKey, none⟩,
          ⟨.GetUsersPermissionFromProject f.projectKey, none⟩] ++
        userEvents w.ToLower f.sourceID users ++
        [⟨.GetGroupsPermissionFromProject f.projectKey, none⟩] ++
        groupEvents m.Bitbucket w.ToLower f.sourceID groups ++
        ([⟨.GetRepo f.projectKey f.repoSlug, none⟩,
          ⟨.GetGroupsPermissionFromRepo f.projectKey f.repoSlug, none⟩] ++
        groupEvents m.Bitbucket w.ToLower f.sourceID rgroups ++
        [⟨.GetUsersPermissionFromRepo f.projectKey f.repoSlug, none⟩] ++
        userEvents w.ToLower f.sourceID rusers))) := by
  unfold projectScope
  split
  · -- GetProject fails
    rename_i e he
    left
    exact ⟨e, rfl, Inv_fetch hinv (by simp [Call.isFetch]), Or.inr ⟨tr, _, rfl, hok⟩⟩
  · rename_i org horg
    split
    · -- GetUsersPermissionFromProject fails
      rename_i e he
      left
      refine ⟨e, rfl, Inv_fetch hinv (by simp [Call.isFetch]), Or.inr ?_⟩
      exact ⟨tr ++ [⟨.GetProject f.projectKey, none⟩],
        .GetUsersPermissionFromProject f.projectKey, by simp,
        AllOk_append.2 ⟨hok, AllOk_single _⟩⟩
    · rename_i users husers
      have hinv1 : Inv w f [] [] (tr ++ [⟨.GetProject f.projectKey, none⟩,
          ⟨.GetUsersPermissionFromProject f.projectKey, none⟩]) :=
        Inv_fetch hinv (by simp [Call.isFetch])
      have hok1 : AllOk (tr ++ [⟨.GetProject f.projectKey, none⟩,
          ⟨.GetUsersPermissionFromProject f.projectKey, none⟩]) := by
        refine AllOk_append.2 ⟨hok, ?_⟩
        intro ev hev
        simp at hev
        rcases hev with rfl | rfl <;> rfl
      generalize hul : userLoop m.Gitea w.ToLower f.sourceID users []
        (tr ++ [⟨.GetProject f.projectKey, none⟩,
          ⟨.GetUsersPermissionFromProject f.projectKey, none⟩]) = res
      obtain ⟨r1, pp1, tr1⟩ := res
      obtain ⟨d1, hd1, horig1, hshape1, hnames1⟩ := userLoop_spec _ _ _ _ _ _ _ _ _ hul
      have hinv2 : Inv w f pp1 [] tr1 := by
        rw [hd1]
        refine Inv_extend hinv1 ?_ ?_
        · intro ev hev
          obtain ⟨up, hup, hc⟩ := horig1 ev hev
          exact Origin_user hm (Or.inl ⟨users, husers, up, hup, rfl⟩) hc
        · intro u
          rw [hnames1 u]
          tauto
      cases r1 with
      | some e =>
        left
        exact ⟨e, rfl, hinv2, Or.inr (by rw [hd1]; exact Failed_of_shape hok1 hshape1)⟩
      | none =>
        simp only
        have hok2 : AllOk tr1 := by rw [hd1]; exact AllOk_append.2 ⟨hok1, hshape1⟩
        obtain ⟨htr1, hget1⟩ := userLoop_ok _ _ _ _ _ _ _ _ hul
        split
        · -- GetGroupsPermissionFromProject fails
          rename_i e he
          left
          exact ⟨e, rfl, Inv_fetch hinv2 (by simp [Call.isFetch]), Or.inr ⟨tr1, _, rfl, hok2⟩⟩
        · rename_i groups hgroups
          have hinv3 : Inv w f pp1 []
              (tr1 ++ [⟨.GetGroupsPermissionFromProject f.projectKey, none⟩]) :=
            Inv_fetch hinv2 (by simp [Call.isFetch])
          have hok3 : AllOk (tr1 ++ [⟨.GetGroupsPermissionFromProject f.projectKey, none⟩]) :=
            AllOk_append.2 ⟨hok2, AllOk_single _⟩
          generalize hgl : groupLoop m w.ToLower f.sourceID groups pp1
            (tr1 ++ [⟨.GetGroupsPermissionFromProject f.projectKey, none⟩]) = res
          obtain ⟨r2, pp2, tr2⟩ := res
          obtain ⟨d2, hd2, horig2, hshape2, hnames2⟩ := groupLoop_spec _ _ _ _ _ _ _ _ _ hgl
          have hsrc2 : ∀ g ∈ groups, ∀ us, m.Bitbucket.GetUsersFromGroup g.Group.Name = .ok us →
              ∀ u ∈ us, SourceUser m.Bitbucket f u := fun g hg us hus u hu =>
            Or.inr (Or.inl ⟨groups, hgroups, g, hg, us, hus, hu⟩)
          have hinv4 : Inv w f pp2 [] tr2 := by
            rw [hd2]
            refine Inv_extend hinv3 (fun ev hev => Origin_group hm hsrc2 (horig2 ev hev)) ?_
            intro u
            rw [hnames2 u]
            tauto
          cases r2 with
          | some e =>
            left
            exact ⟨e, rfl, hinv4, Or.inr (by rw [hd2]; exact Failed_of_shape hok3 hshape2)⟩
          | none =>
            simp only
            obtain ⟨htr2, hget2⟩ := groupLoop_ok _ _ _ _ _ _ _ _ hgl
            have hok4 : AllOk tr2 := by rw [hd2]; exact AllOk_append.2 ⟨hok3, hshape2⟩
            have htr : tr2 = tr ++ ([⟨.GetProject f.projectKey, none⟩,
                ⟨.GetUsersPermissionFromProject f.projectKey, none⟩] ++
                userEvents w.ToLower f.sourceID users ++
                [⟨.GetGroupsPermissionFromProject f.projectKey, none⟩] ++
                groupEvents m.Bitbucket w.ToLower f.sourceID groups) := by
              rw [htr2, htr1]; simp
            rcases repoScope_cases hm org hinv4 hok4 with hfail | hgo
            · exact Or.inl hfail
            · right
              obtain ⟨repo, rgroups, rusers, rp, hrepo, hrgroups, hrusers, hrp, hinv5, hok5, heq⟩ :=
                hgo
              rw [htr] at hinv5 hok5 heq
              simp only [List.append_assoc] at hinv5 hok5 heq ⊢
              refine ⟨org, users, groups, repo, rgroups, rusers, pp2, rp, horg, husers, hgroups,
                hrepo, hrgroups, hrusers, ?_, hrp, hinv5, hok5, ?_⟩
              · intro L
                rw [hget2 L, hget1 L]
                simp [PermMap.get]
              · rw [htr]
                simp only [List.append_assoc]
                exact heq

theorem AllOk_userEvents (tl : String → String) (sid : Int) (users : List UserPermission) :
    AllOk (userEvents tl sid users) := by
  intro ev hev
  simp only [userEvents, List.mem_map] at hev
  obtain ⟨up, _, rfl⟩ := hev
  rfl

theorem AllOk_groupEvents (src : Bitbucket) (tl : String → String) (sid : Int)
    (groups : List GroupPermission) : AllOk (groupEvents src tl sid groups) := by
  intro ev hev
  simp only [groupEvents, List.mem_flatMap, List.mem_cons, List.mem_map] at hev
  obtain ⟨g, _, rfl | ⟨u, _, rfl⟩⟩ := hev <;> rfl

theorem AllOk_preTrace (src : Bitbucket) (tl : String → String) (f : Flags)
    (users : List UserPermission) (groups rgroups : List GroupPermission)
    (rusers : List UserPermission) : AllOk (preTrace src tl f users groups rgroups rusers) := by
  unfold preTrace
  simp only [AllOk_append, AllOk_userEvents, AllOk_groupEvents, and_true, true_and]
  refine ⟨⟨⟨?_, AllOk_single _⟩, ?_⟩, AllOk_single _⟩
  · intro ev hev
    simp at hev
    rcases hev with rfl | rfl | rfl <;> rfl
  · intro ev hev
    simp at hev
    rcases hev with rfl | rfl <;> rfl

/-- Every run either fails before the provisioning steps or reaches them
with both tables described exactly. -/
theorem RunE_cases (w : World) (f : Flags) :
    EarlyFail w f (RunE w f) ∨ ReachesProvision w f (RunE w f) := by
  unfold RunE
  split
  · rename_i e he
    exact Or.inl ⟨e, rfl, Inv_init w f _, Or.inr ⟨[], .NewMigration, rfl, AllOk_nil⟩⟩
  · rename_i m hm
    split
    · exact Or.inl ⟨_, rfl, Inv_init w f _, Or.inl (AllOk_single _)⟩
    · rcases @projectScope_cases w f m hm _ (Inv_init w f none) (AllOk_single _) with h | h
      · exact Or.inl h
      · right
        obtain ⟨org, users, groups, repo, rgroups, rusers, pp, rp, h1, h2, h3, h4, h5, h6, h7, h8,
          hinv, _, heq⟩ := h
        have htr : [(⟨.NewMigration, none⟩ : Event)] ++ ([⟨.GetProject f.projectKey, none⟩,
            ⟨.GetUsersPermissionFromProject f.projectKey, none⟩] ++
            userEvents w.ToLower f.sourceID users ++
            [⟨.GetGroupsPermissionFromProject f.projectKey, none⟩] ++
            groupEvents m.Bitbucket w.ToLower f.sourceID groups ++
            ([⟨.GetRepo f.projectKey f.repoSlug, none⟩,
              ⟨.GetGroupsPermissionFromRepo f.projectKey f.repoSlug, none⟩] ++
            groupEvents m.Bitbucket w.ToLower f.sourceID rgroups ++
            [⟨.GetUsersPermissionFromRepo f.projectKey f.repoSlug, none⟩] ++
            userEvents w.ToLower f.sourceID rusers)) =
            preTrace m.Bitbucket w.ToLower f users groups rgroups rusers := by
          simp [preTrace]
        rw [htr] at hinv heq
        exact ⟨m, org, users, groups, repo, rgroups, rusers, pp, rp, hm, h1, h2, h3, h4, h5, h6,
          h7, h8, hinv, heq⟩

/-- Lines 181-216: the three ways `provision` can go. -/
theorem provision_cases (m : Migration) (f : Flags) (org : Project) (repo : Repository)
    (pp rp : PermMap) (tr : List Event) :
    (∃ e, provision m f org repo pp rp tr =
      ⟨.err e, tr ++ [⟨.CreateNewOrg (orgOptsOf f org pp), some e⟩], pp, rp⟩) ∨
    (repo.Links.Clone[1]? = none ∧ ∃ msg, provision m f org repo pp rp tr =
      ⟨.panic msg, tr ++ [⟨.CreateNewOrg (orgOptsOf f org pp), none⟩], pp, rp⟩) ∨
    (∃ link e, repo.Links.Clone[1]? = some link ∧ provision m f org repo pp rp tr =
      ⟨exitOf e, tr ++ [⟨.CreateNewOrg (orgOptsOf f org pp), none⟩,
        ⟨.MigrateNewRepo (repoOptsOf f org repo rp link), e⟩], pp, rp⟩) := by
  unfold provision
  simp only
  split
  · rename_i e he
    exact Or.inl ⟨e, rfl⟩
  · split
    · rename_i hl
      exact Or.inr (Or.inl ⟨hl, _, rfl⟩)
    · rename_i link hl
      split
      · rename_i e he
        exact Or.inr (Or.inr ⟨link, some e, hl, rfl⟩)
      · exact Or.inr (Or.inr ⟨link, none, hl, rfl⟩)

/-- What `provision` adds: provisioning calls only, the first of which is
`CreateNewOrg`; the tables are left as they were. -/
theorem provision_trace (m : Migration) (f : Flags) (org : Project) (repo : Repository)
    (pp rp : PermMap) (tr : List Event) :
    ∃ e d, (provision m f org repo pp rp tr).trace =
        tr ++ ⟨.CreateNewOrg (orgOptsOf f org pp), e⟩ :: d ∧
      (∀ ev ∈ d, ∃ link e2, repo.Links.Clone[1]? = some link ∧ e = none ∧
        ev = ⟨.MigrateNewRepo (repoOptsOf f org repo rp link), e2⟩) ∧
      d.length ≤ 1 ∧
      (provision m f org repo pp rp tr).projectPermission = pp ∧
      (provision m f org repo pp rp tr).repoPermission = rp := by
  rcases provision_cases m f org repo pp rp tr with ⟨e, h⟩ | ⟨_, msg, h⟩ | ⟨link, e, hl, h⟩
  · exact ⟨some e, [], by rw [h], by simp, by simp, by rw [h], by rw [h]⟩
  · exact ⟨none, [], by rw [h], by simp, by simp, by rw [h], by rw [h]⟩
  · refine ⟨none, [⟨.MigrateNewRepo (repoOptsOf f org repo rp link), e⟩], by rw [h], ?_, by simp,
      by rw [h], by rw [h]⟩
    intro ev hev
    simp only [List.mem_singleton] at hev
    exact ⟨link, e, hl, rfl, hev⟩

theorem mem_members (src : Bitbucket) (name : String) (x : User) :
    x ∈ members src name ↔ ∃ us, src.GetUsersFromGroup name = .ok us ∧ x ∈ us := by
  unfold members
  cases h : src.GetUsersFromGroup name with
  | ok us => simp
  | error e => simp

theorem mem_directNames (tl : String → String) (L u : String) (users : List UserPermission) :
    u ∈ directNames tl L users ↔ ∃ up ∈ users, up.Permission = L ∧ tl up.User.Name = u := by
  simp only [directNames, List.mem_map, List.mem_filter, decide_eq_true_eq]
  constructor
  · rintro ⟨up, ⟨h1, h2⟩, h3⟩; exact ⟨up, h1, h2, h3⟩
  · rintro ⟨up, h1, h2, h3⟩; exact ⟨up, ⟨h1, h2⟩, h3⟩

theorem mem_groupNames (src : Bitbucket) (tl : String → String) (L u : String)
    (groups : List GroupPermission) :
    u ∈ groupNames src tl L groups ↔
      ∃ g ∈ groups, g.Permission = L ∧
        ∃ us, src.GetUsersFromGroup g.Group.Name = .ok us ∧ ∃ x ∈ us, tl x.Name = u := by
  simp only [groupNames, List.mem_flatMap, List.mem_map, List.mem_filter, decide_eq_true_eq,
    mem_members]
  constructor
  · rintro ⟨g, ⟨h1, h2⟩, x, ⟨us, h3, h4⟩, h5⟩; exact ⟨g, h1, h2, us, h3, x, h4, h5⟩
  · rintro ⟨g, h1, h2, us, h3, x, h4, h5⟩; exact ⟨g, ⟨h1, h2⟩, x, ⟨us, h3, h4⟩, h5⟩

theorem mem_table (src : Bitbucket) (tl : String → String) (users : List UserPermission)
    (groups : List GroupPermission) (L u : String) :
    (u ∈ directNames tl L users ∨ u ∈ groupNames src tl L groups) ↔
      Granted src tl users groups L u := by
  rw [mem_directNames, mem_groupNames]
  rfl

/-- A run that fails before the provisioning steps never calls `CreateNewOrg`. -/
theorem EarlyFail.not_reaches {w : World} {f : Flags} {r : Run} (h : EarlyFail w f r) :
    ¬ ReachesOrg r := by
  obtain ⟨e, _, ⟨_, hnp, _⟩, _⟩ := h
  rintro ⟨o, e2, ho⟩
  have := hnp _ ho
  simp [Call.isProvision] at this

/-- The facts about a run that reaches the provisioning steps. -/
theorem RunE_reaches (w : World) (f : Flags) (h : ReachesOrg (RunE w f)) :
    ∃ m org users groups repo rgroups rusers e d,
      w.NewMigration = .ok m ∧
      m.Bitbucket.GetProject f.projectKey = .ok org ∧
      m.Bitbucket.GetUsersPermissionFromProject f.projectKey = .ok users ∧
      m.Bitbucket.GetGroupsPermissionFromProject f.projectKey = .ok groups ∧
      m.Bitbucket.GetRepo f.projectKey f.repoSlug = .ok repo ∧
      m.Bitbucket.GetGroupsPermissionFromRepo f.projectKey f.repoSlug = .ok rgroups ∧
      m.Bitbucket.GetUsersPermissionFromRepo f.projectKey f.repoSlug = .ok rusers ∧
      (∀ L, (RunE w f).projectPermission.get L =
        directNames w.ToLower L users ++ groupNames m.Bitbucket w.ToLower L groups) ∧
      (∀ L, (RunE w f).repoPermission.get L =
        groupNames m.Bitbucket w.ToLower L rgroups ++ directNames w.ToLower L rusers) ∧
      NoProvision (preTrace m.Bitbucket w.ToLower f users groups rgroups rusers) ∧
      (RunE w f).trace = preTrace m.Bitbucket w.ToLower f users groups rgroups rusers ++
        ⟨.CreateNewOrg (orgOptsOf f org (RunE w f).projectPermission), e⟩ :: d ∧
      (∀ ev ∈ d, ∃ link e2, repo.Links.Clone[1]? = some link ∧ e = none ∧
        ev = ⟨.MigrateNewRepo (repoOptsOf f org repo (RunE w f).repoPermission link), e2⟩) ∧
      d.length ≤ 1 := by
  rcases RunE_cases w f with hf | hr
  · exact absurd h hf.not_reaches
  · obtain ⟨m, org, users, groups, repo, rgroups, rusers, pp, rp, hm, h1, h2, h3, h4, h5, h6, hpp,
      hrp, hinv, heq⟩ := hr
    obtain ⟨e, d, htr, hd, hlen, hp1, hp2⟩ := provision_trace m f org repo pp rp
      (preTrace m.Bitbucket w.ToLower f users groups rgroups rusers)
    rw [← heq] at htr hp1 hp2
    refine ⟨m, org, users, groups, repo, rgroups, rusers, e, d, hm, h1, h2, h3, h4, h5, h6, ?_, ?_,
      hinv.2.1, ?_, ?_, hlen⟩
    · rw [hp1]; exact hpp
    · rw [hp2]; exact hrp
    · rw [hp1]; exact htr
    · rw [hp2]; exact hd

/-- The `CreateNewOrg` and `MigrateNewRepo` events of a trace of the form
reached by `RunE_reaches`. -/
theorem provision_events {pre d : List Event} {oo : CreateNewOrgOption} {e : Option Error}
    (hpre : NoProvision pre) {P : Event → Prop} (hd : ∀ ev ∈ d, P ev) {ev : Event}
    (hev : ev ∈ pre ++ ⟨.CreateNewOrg oo, e⟩ :: d) (hp : ev.call.isProvision = true) :
    ev = ⟨.CreateNewOrg oo, e⟩ ∨ (ev ∈ d ∧ P ev) := by
  rcases List.mem_append.1 hev with h | h
  · have := hpre ev h
    rw [hp] at this
    cases this
  · rcases List.mem_cons.1 h with h | h
    · exact Or.inl h
    · exact Or.inr ⟨h, hd ev h⟩

/-- C1. Permission union correctness: on every run that reaches the
Organization Provisioner, the project table is the one handed to
`CreateNewOrg`, the repository table is the one handed to `MigrateNewRepo`,
and for each scope, every level `L` and every username `u`: `u` occurs in
`table[L]` if and only if a direct grant of that scope has permission `L` and
lower-cased user name `u`, or a group grant of that scope has permission `L`
and `GetUsersFromGroup` returns for that group a user with lower-cased name
`u`. -/
theorem C1_permission_union (w : World) (f : Flags) (h : ReachesOrg (RunE w f)) :
    ∃ m users groups rgroups rusers,
      w.NewMigration = .ok m ∧
      m.Bitbucket.GetUsersPermissionFromProject f.projectKey = .ok users ∧
      m.Bitbucket.GetGroupsPermissionFromProject f.projectKey = .ok groups ∧
      m.Bitbucket.GetGroupsPermissionFromRepo f.projectKey f.repoSlug = .ok rgroups ∧
      m.Bitbucket.GetUsersPermissionFromRepo f.projectKey f.repoSlug = .ok rusers ∧
      (∀ o e, (⟨.CreateNewOrg o, e⟩ : Event) ∈ (RunE w f).trace →
        o.Permission = (RunE w f).projectPermission) ∧
      (∀ o e, (⟨.MigrateNewRepo o, e⟩ : Event) ∈ (RunE w f).trace →
        o.Permission = (RunE w f).repoPermission) ∧
      (∀ L u, u ∈ (RunE w f).projectPermission.get L ↔
        Granted m.Bitbucket w.ToLower users groups L u) ∧
      (∀ L u, u ∈ (RunE w f).repoPermission.get L ↔
        Granted m.Bitbucket w.ToLower rusers rgroups L u) := by
  obtain ⟨m, org, users, groups, repo, rgroups, rusers, e, d, hm, _, h2, h3, _, h5, h6, hpp, hrp,
    hnp, htr, hd, _⟩ := RunE_reaches w f h
  refine ⟨m, users, groups, rgroups, rusers, hm, h2, h3, h5, h6, ?_, ?_, ?_, ?_⟩
  · intro o e2 ho
    rw [htr] at ho
    rcases provision_events hnp hd ho rfl with h | ⟨_, link, e3, _, _, h⟩
    · injection h with h _
      injection h with h
      rw [h]
      rfl
    · injection h with h _
      cases h
  · intro o e2 ho
    rw [htr] at ho
    rcases provision_events hnp hd ho rfl with h | ⟨_, link, e3, _, _, h⟩
    · injection h with h _
      cases h
    · injection h with h _
      injection h with h
      rw [h]
      rfl
  · intro L u
    rw [hpp L, List.mem_append, mem_table]
  · intro L u
    rw [hrp L, List.mem_append, Or.comm, mem_table]

/-- C4. Default fallback: on every run that reaches the provisioning steps,
`CreateNewOrg.Name` and `MigrateNewRepo.Owner` are the target-owner flag when
it is non-empty and the Name of the source project otherwise, and
`MigrateNewRepo.Name` is the target-repo flag when it is non-empty and the Name
of the source repository otherwise. -/
theorem C4_default_fallback (w : World) (f : Flags) (h : ReachesOrg (RunE w f)) :
    ∃ m org repo,
      w.NewMigration = .ok m ∧
      m.Bitbucket.GetProject f.projectKey = .ok org ∧
      m.Bitbucket.GetRepo f.projectKey f.repoSlug = .ok repo ∧
      (∀ o e, (⟨.CreateNewOrg o, e⟩ : Event) ∈ (RunE w f).trace →
        o.Name = if f.targetOwner = "" then org.Name else f.targetOwner) ∧
      (∀ o e, (⟨.MigrateNewRepo o, e⟩ : Event) ∈ (RunE w f).trace →
        (o.Owner = if f.targetOwner = "" then org.Name else f.targetOwner) ∧
        (o.Name = if f.targetRepo = "" then repo.Name else f.targetRepo)) := by
  obtain ⟨m, org, users, groups, repo, rgroups, rusers, e, d, hm, h1, _, _, h4, _, _, _, _,
    hnp, htr, hd, _⟩ := RunE_reaches w f h
  refine ⟨m, org, repo, hm, h1, h4, ?_, ?_⟩
  · intro o e2 ho
    rw [htr] at ho
    rcases provision_events hnp hd ho rfl with h | ⟨_, link, e3, _, _, h⟩
    · injection h with h _
      injection h with h
      rw [h]
      rfl
    · injection h with h _
      cases h
  · intro o e2 ho
    rw [htr] at ho
    rcases provision_events hnp hd ho rfl with h | ⟨_, link, e3, _, _, h⟩
    · injection h with h _
      cases h
    · injection h with h _
      injection h with h
      rw [h]
      exact ⟨rfl, rfl⟩

/-- C10 (amended). Clone address by position: when `CreateNewOrg` succeeded
and the clone-link sequence of the source repository has an entry at index 1,
the run calls `MigrateNewRepo` exactly once, as its last call, with `CloneAddr`
the `Href` of that entry, `Private` the negation of the Public flag of the
repository and the Description of the repository. -/
theorem C10_clone_addr_positional (w : World) (f : Flags)
    (h : ∃ o, (⟨.CreateNewOrg o, none⟩ : Event) ∈ (RunE w f).trace) :
    ∃ m repo,
      w.NewMigration = .ok m ∧
      m.Bitbucket.GetRepo f.projectKey f.repoSlug = .ok repo ∧
      ∀ link, repo.Links.Clone[1]? = some link →
        ∃ pre o e, (RunE w f).trace = pre ++ [⟨.MigrateNewRepo o, e⟩] ∧
          (∀ ev ∈ pre, ∀ o2, ev.call ≠ .MigrateNewRepo o2) ∧
          o.CloneAddr = link.Href ∧ o.Private = (!repo.Public) ∧
          o.Description = repo.Description := by
  obtain ⟨o, ho⟩ := h
  rcases RunE_cases w f with hf | hr
  · exact absurd ⟨o, none, ho⟩ hf.not_reaches
  · obtain ⟨m, org, users, groups, repo, rgroups, rusers, pp, rp, hm, _, _, _, h4, _, _, _,
      _, hinv, heq⟩ := hr
    have hnp := hinv.2.1
    refine ⟨m, repo, hm, h4, ?_⟩
    intro link hlink
    have hpre : ∀ e, ∀ ev ∈ preTrace m.Bitbucket w.ToLower f users groups rgroups rusers ++
        [(⟨.CreateNewOrg (orgOptsOf f org pp), e⟩ : Event)], ∀ o2, ev.call ≠ .MigrateNewRepo o2 := by
      intro e ev hev o2 hc
      rcases List.mem_append.1 hev with h | h
      · have := hnp ev h
        rw [hc] at this
        simp [Call.isProvision] at this
      · simp only [List.mem_singleton] at h
        rw [h] at hc
        cases hc
    rcases provision_cases m f org repo pp rp
      (preTrace m.Bitbucket w.ToLower f users groups rgroups rusers) with
      ⟨e, hp⟩ | ⟨hnone, _, _⟩ | ⟨link2, e, hl2, hp⟩
    · -- `CreateNewOrg` failed: excluded by the hypothesis
      rw [heq, hp] at ho
      rcases List.mem_append.1 ho with h | h
      · have := hnp _ h
        simp [Call.isProvision] at this
      · simp at h
    · rw [hnone] at hlink
      cases hlink
    · rw [hlink] at hl2
      cases hl2
      refine ⟨preTrace m.Bitbucket w.ToLower f users groups rgroups rusers ++
        [⟨.CreateNewOrg (orgOptsOf f org pp), none⟩], repoOptsOf f org repo rp link, e, ?_,
        hpre none, rfl, rfl, rfl⟩
      rw [heq, hp]
      simp

/-- A failed call in a trace whose earlier calls all succeeded is the last
call of that trace. -/
theorem failed_is_last {pre : List Event} (hpre : AllOk pre) {c c2 : Call} {e : Error}
    {r : Option Error} (h : (⟨c, some e⟩ : Event) ∈ pre ++ [⟨c2, r⟩]) :
    c = c2 ∧ r = some e := by
  rcases List.mem_append.1 h with h | h
  · have := hpre _ h
    cases this
  · simp only [List.mem_singleton] at h
    injection h with h1 h2
    exact ⟨h1, h2.symm⟩

/-- C2. Fail-fast: when any collaborator call of a run returns an error, the
run returns exactly that error, the failing call is the last call of the run
and every earlier call succeeded; when the failing call is a source fetch, a
group-membership resolution or a user-provisioning call, neither
`CreateNewOrg` nor `MigrateNewRepo` is invoked. -/
theorem C2_fail_fast (w : World) (f : Flags) (c : Call) (e : Error)
    (h : (⟨c, some e⟩ : Event) ∈ (RunE w f).trace) :
    (RunE w f).exit = .err e ∧
    (∃ pre, (RunE w f).trace = pre ++ [⟨c, some e⟩] ∧ AllOk pre) ∧
    (c.isProvision = false → NoProvision (RunE w f).trace) := by
  rcases RunE_cases w f with hf | hr
  · obtain ⟨e2, hexit, ⟨_, hnp, _⟩, hok | ⟨pre, c2, htr, hpre⟩⟩ := hf
    · have := hok _ h
      cases this
    · rw [htr] at h
      obtain ⟨rfl, h2⟩ := failed_is_last hpre h
      injection h2 with h2
      subst h2
      exact ⟨hexit, ⟨pre, htr, hpre⟩, fun _ => hnp⟩
  · obtain ⟨m, org, users, groups, repo, rgroups, rusers, pp, rp, hm, _, _, _, _, _, _, _,
      _, hinv, heq⟩ := hr
    have hok := AllOk_preTrace m.Bitbucket w.ToLower f users groups rgroups rusers
    rcases provision_cases m f org repo pp rp
      (preTrace m.Bitbucket w.ToLower f users groups rgroups rusers) with
      ⟨e2, hp⟩ | ⟨_, msg, hp⟩ | ⟨link, e2, _, hp⟩
    · rw [heq, hp] at h ⊢
      obtain ⟨rfl, h2⟩ := failed_is_last hok h
      injection h2 with h2
      subst h2
      exact ⟨rfl, ⟨_, rfl, hok⟩, fun hc => by simp [Call.isProvision] at hc⟩
    · rw [heq, hp] at h
      have := (failed_is_last hok h).2
      cases this
    · have hok2 : AllOk (preTrace m.Bitbucket w.ToLower f users groups rgroups rusers ++
          [⟨.CreateNewOrg (orgOptsOf f org pp), none⟩]) :=
        AllOk_append.2 ⟨hok, AllOk_single _⟩
      have htr : (RunE w f).trace = (preTrace m.Bitbucket w.ToLower f users groups rgroups rusers ++
          [⟨.CreateNewOrg (orgOptsOf f org pp), none⟩]) ++
          [⟨.MigrateNewRepo (repoOptsOf f org repo rp link), e2⟩] := by
        rw [heq, hp]; simp
      rw [htr] at h
      obtain ⟨rfl, h2⟩ := failed_is_last hok2 h
      subst h2
      refine ⟨by rw [heq, hp]; rfl, ⟨_, htr, hok2⟩, fun hc => by simp [Call.isProvision] at hc⟩

/-- C3 (amended). Validation after client construction: when the project key
or the repository slug is empty, the run first calls `NewMigration`; if that
succeeds the run fails with the validation error and makes no other call (no
Source API call, no Target API call); if it fails the run returns the error of
`NewMigration` instead. -/
theorem C3_validation_after_construction (w : World) (f : Flags)
    (h : f.projectKey = "" ∨ f.repoSlug = "") :
    (∀ m, w.NewMigration = .ok m →
      RunE w f = ⟨.err "project-key or repo-slug is empty", [⟨.NewMigration, none⟩], [], []⟩) ∧
    (∀ e, w.NewMigration = .error e →
      RunE w f = ⟨.err e, [⟨.NewMigration, some e⟩], [], []⟩) := by
  constructor
  · intro m hm
    unfold RunE
    rw [hm]
    simp only [h, if_true]
  · intro e he
    unfold RunE
    rw [he]

/-- The position of `CreateNewOrg` in a trace of the form reached by
`RunE_reaches` is unique. -/
theorem org_call_position {P d : List Event} (hP : NoProvision P)
    (hd : ∀ ev ∈ d, ∃ o2 e2, ev = ⟨.MigrateNewRepo o2, e2⟩) {o0 o : CreateNewOrgOption}
    {e0 e : Option Error} :
    ∀ {pre post : List Event},
      P ++ ⟨.CreateNewOrg o0, e0⟩ :: d = pre ++ ⟨.CreateNewOrg o, e⟩ :: post → pre = P := by
  induction P with
  | nil =>
    intro pre post h
    cases pre with
    | nil => rfl
    | cons a pre2 =>
      simp only [List.nil_append, List.cons_append, List.cons.injEq] at h
      obtain ⟨_, h2⟩ := h
      obtain ⟨o2, e2, h3⟩ := hd ⟨.CreateNewOrg o, e⟩ (by rw [h2]; simp)
      injection h3 with h3 _
      cases h3
  | cons p P ih =>
    intro pre post h
    cases pre with
    | nil =>
      simp only [List.nil_append, List.cons_append, List.cons.injEq] at h
      have := hP p (by simp)
      rw [h.1] at this
      simp [Call.isProvision] at this
    | cons a pre2 =>
      simp only [List.cons_append, List.cons.injEq] at h
      have hP2 : NoProvision P := fun ev hev => hP ev (List.mem_cons_of_mem _ hev)
      rw [h.1, ih hP2 h.2]

/-- C9. Canonical login and provision-before-use: every `GreateOrGetUser` call
of a run carries `LoginName` equal to the lower-cased `Username` of the same
call, the configured source-id, and the name, display name and e-mail of a
user referenced by the source; at the end of every run, however it ends, the
usernames present in the two tables are exactly the `LoginName`s of the
`GreateOrGetUser` calls that succeeded; and when the run reaches the
Organization Provisioner, the usernames present in the two tables are exactly
the `LoginName`s of the `GreateOrGetUser` calls that succeeded before the call
of `CreateNewOrg`. -/
theorem C9_canonical_login (w : World) (f : Flags) :
    (∀ o e, (⟨.GreateOrGetUser o, e⟩ : Event) ∈ (RunE w f).trace →
      o.LoginName = w.ToLower o.Username ∧ o.SourceID = f.sourceID ∧
      ∃ m user, w.NewMigration = .ok m ∧ SourceUser m.Bitbucket f user ∧
        o.Username = user.Name ∧ o.FullName = user.DisplayName ∧
        o.Email = user.EmailAddress) ∧
    (∀ u, (Named (RunE w f).projectPermission u ∨ Named (RunE w f).repoPermission u) ↔
      Provisioned (RunE w f).trace u) ∧
    (∀ pre o e post, (RunE w f).trace = pre ++ ⟨.CreateNewOrg o, e⟩ :: post →
      ∀ u, (Named (RunE w f).projectPermission u ∨ Named (RunE w f).repoPermission u) ↔
        Provisioned pre u) := by
  have key : (∀ ev ∈ (RunE w f).trace, Origin w f ev) ∧
      (∀ u, (Named (RunE w f).projectPermission u ∨ Named (RunE w f).repoPermission u) ↔
        Provisioned (RunE w f).trace u) ∧
      (∀ pre o e post, (RunE w f).trace = pre ++ ⟨.CreateNewOrg o, e⟩ :: post →
        ∀ u, (Named (RunE w f).projectPermission u ∨ Named (RunE w f).repoPermission u) ↔
          Provisioned pre u) := by
    rcases RunE_cases w f with hf | hr
    · obtain ⟨_, _, hinv, _⟩ := hf
      refine ⟨hinv.1, hinv.2.2, ?_⟩
      intro pre o e post htr
      have := hinv.2.1 ⟨.CreateNewOrg o, e⟩ (by rw [htr]; simp)
      simp [Call.isProvision] at this
    · obtain ⟨m, org, users, groups, repo, rgroups, rusers, pp, rp, hm, _, _, _, _, _, _, _,
        _, hinv, heq⟩ := hr
      obtain ⟨e, d, htr, hd, _, hp1, hp2⟩ := provision_trace m f org repo pp rp
        (preTrace m.Bitbucket w.ToLower f users groups rgroups rusers)
      rw [heq, htr, hp1, hp2]
      obtain ⟨i1, i2, i3⟩ := hinv
      have hnew : ∀ ev ∈ (⟨.CreateNewOrg (orgOptsOf f org pp), e⟩ : Event) :: d,
          ev.call.isProvision = true := by
        intro ev hev
        rcases List.mem_cons.1 hev with rfl | h
        · rfl
        · obtain ⟨link, e2, _, _, rfl⟩ := hd ev h
          rfl
      refine ⟨?_, ?_, ?_⟩
      · intro ev hev
        rcases List.mem_append.1 hev with h | h
        · exact i1 ev h
        · intro o ho
          have := hnew ev h
          rw [ho] at this
          simp [Call.isProvision] at this
      · intro u
        rw [i3 u, Provisioned_append]
        have : ¬ Provisioned ((⟨.CreateNewOrg (orgOptsOf f org pp), e⟩ : Event) :: d) u := by
          rintro ⟨o, ho, _⟩
          have := hnew _ ho
          simp [Call.isProvision] at this
        tauto
      · intro pre o e2 post hdec u
        have hd2 : ∀ ev ∈ d, ∃ o2 e3, ev = (⟨.MigrateNewRepo o2, e3⟩ : Event) := by
          intro ev hev
          obtain ⟨link, e3, _, _, h⟩ := hd ev hev
          exact ⟨_, _, h⟩
        rw [org_call_position i2 hd2 hdec]
        exact i3 u
  obtain ⟨k1, k2, k3⟩ := key
  refine ⟨?_, k2, k3⟩
  intro o e ho
  obtain ⟨m, user, hm, hs, rfl⟩ := k1 _ ho o rfl
  exact ⟨rfl, rfl, m, user, hm, hs, rfl, rfl, rfl⟩

/-! ## Counting calls and table entries -/

theorem loginCalls_append (a b : List Event) (u : String) :
    loginCalls (a ++ b) u = loginCalls a u + loginCalls b u := by
  simp [loginCalls, List.countP_append]

theorem loginCalls_cons (ev : Event) (a : List Event) (u : String) :
    loginCalls (ev :: a) u = loginCalls [ev] u + loginCalls a u := by
  rw [show ev :: a = [ev] ++ a from rfl, loginCalls_append]

theorem loginCalls_okUser (tl : String → String) (sid : Int) (users : List User) (u : String) :
    loginCalls (users.map (okUser tl sid)) u =
      users.countP (fun x => decide (tl x.Name = u)) := by
  induction users with
  | nil => rfl
  | cons x users ih =>
    rw [List.map_cons, loginCalls_cons, ih, List.countP_cons]
    by_cases hx : tl x.Name = u <;> simp [loginCalls, okUser, userOpts, hx, Nat.add_comm]

theorem loginCalls_userEvents (tl : String → String) (sid : Int) (users : List UserPermission)
    (u : String) :
    loginCalls (userEvents tl sid users) u =
      users.countP (fun up => decide (tl up.User.Name = u)) := by
  have := loginCalls_okUser tl sid (users.map (fun up => up.User)) u
  rw [List.map_map, List.countP_map] at this
  exact this

theorem loginCalls_groupEvents (src : Bitbucket) (tl : String → String) (sid : Int)
    (groups : List GroupPermission) (u : String) :
    loginCalls (groupEvents src tl sid groups) u =
      (groups.map (fun g =>
        (members src g.Group.Name).countP (fun x => decide (tl x.Name = u)))).sum := by
  induction groups with
  | nil => rfl
  | cons g groups ih =>
    have : groupEvents src tl sid (g :: groups) =
        [⟨.GetUsersFromGroup g.Group.Name, none⟩] ++
          ((members src g.Group.Name).map (okUser tl sid) ++ groupEvents src tl sid groups) := by
      simp [groupEvents]
    rw [this, loginCalls_append, loginCalls_append, ih, loginCalls_okUser]
    simp [loginCalls]

theorem loginCalls_provision {d : List Event} (hd : ∀ ev ∈ d, ev.call.isProvision = true)
    (u : String) : loginCalls d u = 0 := by
  unfold loginCalls
  rw [List.countP_eq_zero]
  intro ev hev
  have := hd ev hev
  cases hc : ev.call <;> simp [hc, Call.isProvision] at this ⊢

theorem loginCalls_preTrace (src : Bitbucket) (tl : String → String) (f : Flags)
    (users : List UserPermission) (groups rgroups : List GroupPermission)
    (rusers : List UserPermission) (u : String) :
    loginCalls (preTrace src tl f users groups rgroups rusers) u =
      grantOccurrences src tl users groups u + grantOccurrences src tl rusers rgroups u := by
  unfold preTrace grantOccurrences
  simp only [loginCalls_append, loginCalls_userEvents, loginCalls_groupEvents]
  simp [loginCalls]
  omega

theorem count_directNames (tl : String → String) (L u : String) (users : List UserPermission) :
    (directNames tl L users).count u =
      (users.filter (fun up => decide (up.Permission = L))).countP
        (fun up => decide (tl up.User.Name = u)) := by
  unfold directNames
  rw [List.count, List.countP_map]
  congr 1

theorem count_groupNames (src : Bitbucket) (tl : String → String) (L u : String)
    (groups : List GroupPermission) :
    (groupNames src tl L groups).count u =
      ((groups.filter (fun g => decide (g.Permission = L))).map (fun g =>
        (members src g.Group.Name).countP (fun x => decide (tl x.Name = u)))).sum := by
  unfold groupNames
  induction groups.filter (fun g => decide (g.Permission = L)) with
  | nil => rfl
  | cons g gs ih =>
    rw [List.flatMap_cons, List.count_append, ih, List.map_cons, List.sum_cons]
    congr 1
    rw [List.count, List.countP_map]
    congr 1

/-- C7 (amended). User provisioning once per grant occurrence: on a run that
reaches the Organization Provisioner, the number of `GreateOrGetUser` calls
with `LoginName = u` is the number of grant occurrences of `u`, namely one per
direct grant and one per (group grant, member) pair whose lower-cased user
name is `u`, summed over project scope and repository scope. -/
theorem C7_user_calls_per_grant (w : World) (f : Flags) (h : ReachesOrg (RunE w f)) :
    ∃ m users groups rgroups rusers,
      w.NewMigration = .ok m ∧
      m.Bitbucket.GetUsersPermissionFromProject f.projectKey = .ok users ∧
      m.Bitbucket.GetGroupsPermissionFromProject f.projectKey = .ok groups ∧
      m.Bitbucket.GetGroupsPermissionFromRepo f.projectKey f.repoSlug = .ok rgroups ∧
      m.Bitbucket.GetUsersPermissionFromRepo f.projectKey f.repoSlug = .ok rusers ∧
      ∀ u, loginCalls (RunE w f).trace u =
        grantOccurrences m.Bitbucket w.ToLower users groups u +
          grantOccurrences m.Bitbucket w.ToLower rusers rgroups u := by
  obtain ⟨m, org, users, groups, repo, rgroups, rusers, e, d, hm, _, h2, h3, _, h5, h6, _, _,
    _, htr, hd, _⟩ := RunE_reaches w f h
  refine ⟨m, users, groups, rgroups, rusers, hm, h2, h3, h5, h6, ?_⟩
  intro u
  rw [htr, loginCalls_append, loginCalls_preTrace, loginCalls_provision, Nat.add_zero]
  intro ev hev
  rcases List.mem_cons.1 hev with rfl | h
  · rfl
  · obtain ⟨link, e2, _, _, rfl⟩ := hd ev h
    rfl

/-- C8 (amended). The table maps a level to a list with one entry per grant:
on a run that reaches the Organization Provisioner, for each scope, the number
of occurrences of `u` in `table[L]` is the number of grant occurrences of `u`
among the grants of level `L`, namely one per direct grant and one per (group
grant, member) pair whose lower-cased user name is `u`. -/
theorem C8_table_multiplicity (w : World) (f : Flags) (h : ReachesOrg (RunE w f)) :
    ∃ m users groups rgroups rusers,
      w.NewMigration = .ok m ∧
      m.Bitbucket.GetUsersPermissionFromProject f.projectKey = .ok users ∧
      m.Bitbucket.GetGroupsPermissionFromProject f.projectKey = .ok groups ∧
      m.Bitbucket.GetGroupsPermissionFromRepo f.projectKey f.repoSlug = .ok rgroups ∧
      m.Bitbucket.GetUsersPermissionFromRepo f.projectKey f.repoSlug = .ok rusers ∧
      ∀ L u,
        ((RunE w f).projectPermission.get L).count u =
          grantOccurrences m.Bitbucket w.ToLower
            (users.filter (fun up => decide (up.Permission = L)))
            (groups.filter (fun g => decide (g.Permission = L))) u ∧
        ((RunE w f).repoPermission.get L).count u =
          grantOccurrences m.Bitbucket w.ToLower
            (rusers.filter (fun up => decide (up.Permission = L)))
            (rgroups.filter (fun g => decide (g.Permission = L))) u := by
  obtain ⟨m, org, users, groups, repo, rgroups, rusers, e, d, hm, _, h2, h3, _, h5, h6, hpp, hrp,
    _, _, _, _⟩ := RunE_reaches w f h
  refine ⟨m, users, groups, rgroups, rusers, hm, h2, h3, h5, h6, ?_⟩
  intro L u
  rw [hpp L, hrp L, List.count_append, List.count_append, count_directNames, count_directNames,
    count_groupNames, count_groupNames]
  exact ⟨rfl, Nat.add_comm _ _⟩

/-! ## `CreateAndGetOrg` -/

/-- C5. Organization create-or-get: `CreateAndGetOrg` first looks the
organization up by Name; when the lookup answers not-found it calls `CreateOrg`
exactly once, with the same Name, the supplied Description and Visibility
public when the flag is true and private otherwise, and returns the
organization that `CreateOrg` created; when the lookup finds an organization
it returns that record unchanged and does not call `CreateOrg`. -/
theorem C5_create_or_get (client : gsdk.Client) (opts : CreateOrgOption) :
    (∃ rest, (CreateAndGetOrg client opts).2 = .GetOrg opts.Name :: rest) ∧
    (∀ org resp err, client.GetOrg opts.Name = (org, some resp, err) →
      resp.StatusCode = http.StatusNotFound →
      (CreateAndGetOrg client opts).2 =
        [.GetOrg opts.Name,
          .CreateOrg ⟨opts.Name, opts.Description,
            if opts.Visibility = true then .VisibleTypePublic else .VisibleTypePrivate⟩] ∧
      ∀ created resp2,
        client.CreateOrg ⟨opts.Name, opts.Description,
          if opts.Visibility = true then .VisibleTypePublic else .VisibleTypePrivate⟩ =
            (created, resp2, none) →
        (CreateAndGetOrg client opts).1 = .ret created none) ∧
    (∀ org resp, client.GetOrg opts.Name = (org, some resp, none) →
      resp.StatusCode ≠ http.StatusNotFound →
      CreateAndGetOrg client opts = (.ret org none, [.GetOrg opts.Name])) := by
  refine ⟨?_, ?_, ?_⟩
  · unfold CreateAndGetOrg
    rcases client.GetOrg opts.Name with ⟨newOrg, reponse, err⟩
    cases reponse with
    | none => exact ⟨_, rfl⟩
    | some resp =>
      simp only
      split
      · split <;> exact ⟨_, rfl⟩
      · split <;> exact ⟨_, rfl⟩
  · intro org resp err hget hnf
    have hvis : (if (!opts.Visibility) = true then gsdk.VisibleType.VisibleTypePrivate
        else gsdk.VisibleType.VisibleTypePublic) =
        (if opts.Visibility = true then gsdk.VisibleType.VisibleTypePublic
          else gsdk.VisibleType.VisibleTypePrivate) := by
      cases opts.Visibility <;> rfl
    unfold CreateAndGetOrg
    rw [hget]
    simp only [hnf, if_true, hvis]
    refine ⟨?_, ?_⟩
    · split <;> rfl
    · intro created resp2 hc
      rw [hc]
  · intro org resp hget hnf
    unfold CreateAndGetOrg
    rw [hget]
    simp only [hnf, if_false]

/-- The error paths of `CreateAndGetOrg` when the lookup returns an HTTP
response: a lookup error with a status other than not-found is returned
without calling `CreateOrg`, and after a not-found lookup the error of
`CreateOrg` is returned. -/
theorem CreateAndGetOrg_errors (client : gsdk.Client) (opts : CreateOrgOption) :
    (∀ org resp e, client.GetOrg opts.Name = (org, some resp, some e) →
      resp.StatusCode ≠ http.StatusNotFound →
      CreateAndGetOrg client opts = (.ret none (some e), [.GetOrg opts.Name])) ∧
    (∀ org resp err created resp2 e, client.GetOrg opts.Name = (org, some resp, err) →
      resp.StatusCode = http.StatusNotFound →
      client.CreateOrg ⟨opts.Name, opts.Description,
          if opts.Visibility = true then .VisibleTypePublic else .VisibleTypePrivate⟩ =
            (created, resp2, some e) →
      (CreateAndGetOrg client opts).1 = .ret none (some e)) := by
  refine ⟨?_, ?_⟩
  · intro org resp e hget hnf
    unfold CreateAndGetOrg
    rw [hget]
    simp only [hnf, if_false]
  · intro org resp err created resp2 e hget hnf hc
    have hvis : (if (!opts.Visibility) = true then gsdk.VisibleType.VisibleTypePrivate
        else gsdk.VisibleType.VisibleTypePublic) =
        (if opts.Visibility = true then gsdk.VisibleType.VisibleTypePublic
          else gsdk.VisibleType.VisibleTypePrivate) := by
      cases opts.Visibility <;> rfl
    unfold CreateAndGetOrg
    rw [hget]
    simp only [hnf, if_true, hvis]
    rw [hc]

/-- A lookup that returns no HTTP response makes `CreateAndGetOrg` panic,
whatever error it returns. -/
theorem CreateAndGetOrg_nil_response (client : gsdk.Client) (opts : CreateOrgOption)
    (org : Option gsdk.Organization) (err : Option Error)
    (h : client.GetOrg opts.Name = (org, none, err)) :
    ∃ msg, CreateAndGetOrg client opts = (.panic msg, [.GetOrg opts.Name]) := by
  unfold CreateAndGetOrg
  rw [h]
  exact ⟨_, rfl⟩

/-- C5, at a target without the organization and at a target that holds it. -/
theorem C5_witness :
    ((CreateAndGetOrg absentClient engOpts).2 =
        [.GetOrg "ENG", .CreateOrg ⟨"ENG", "Engineering", .VisibleTypePublic⟩] ∧
      (CreateAndGetOrg absentClient engOpts).1 =
        .ret (some ⟨1, "ENG", "", "Engineering", "public"⟩) none) ∧
    CreateAndGetOrg presentClient engOpts = (.ret (some engOrg) none, [.GetOrg "ENG"]) :=
  ⟨⟨((C5_create_or_get absentClient engOpts).2.1 _ _ _ rfl rfl).1,
      ((C5_create_or_get absentClient engOpts).2.1 _ _ _ rfl rfl).2 _ _ rfl⟩,
    (C5_create_or_get presentClient engOpts).2.2 _ _ rfl (by decide)⟩

/-- C6, failing input. On a target that cannot be reached the lookup returns
an error and no HTTP response; `CreateAndGetOrg` then panics on
`reponse.StatusCode` and the lookup error is not returned. -/
theorem C6_nil_response_panics :
    unreachableClient.GetOrg engOpts.Name = (none, none, some "dial tcp: connection refused") ∧
    CreateAndGetOrg unreachableClient engOpts =
      (.panic "invalid memory address or nil pointer dereference", [.GetOrg "ENG"]) ∧
    (CreateAndGetOrg unreachableClient engOpts).1 ≠
      .ret none (some "dial tcp: connection refused") := by
  refine ⟨rfl, rfl, ?_⟩
  decide

/-! ## The theorems at concrete runs -/

/-- C1 at the scenario of the specification. -/
theorem C1_witness :
    ReachesOrg (RunE scenarioWorld scenarioFlags) ∧
    ∃ m users groups rgroups rusers,
      scenarioWorld.NewMigration = .ok m ∧
      m.Bitbucket.GetUsersPermissionFromProject scenarioFlags.projectKey = .ok users ∧
      m.Bitbucket.GetGroupsPermissionFromProject scenarioFlags.projectKey = .ok groups ∧
      m.Bitbucket.GetGroupsPermissionFromRepo scenarioFlags.projectKey scenarioFlags.repoSlug =
        .ok rgroups ∧
      m.Bitbucket.GetUsersPermissionFromRepo scenarioFlags.projectKey scenarioFlags.repoSlug =
        .ok rusers ∧
      (∀ o e, (⟨.CreateNewOrg o, e⟩ : Event) ∈ (RunE scenarioWorld scenarioFlags).trace →
        o.Permission = (RunE scenarioWorld scenarioFlags).projectPermission) ∧
      (∀ o e, (⟨.MigrateNewRepo o, e⟩ : Event) ∈ (RunE scenarioWorld scenarioFlags).trace →
        o.Permission = (RunE scenarioWorld scenarioFlags).repoPermission) ∧
      (∀ L u, u ∈ (RunE scenarioWorld scenarioFlags).projectPermission.get L ↔
        Granted m.Bitbucket scenarioWorld.ToLower users groups L u) ∧
      (∀ L u, u ∈ (RunE scenarioWorld scenarioFlags).repoPermission.get L ↔
        Granted m.Bitbucket scenarioWorld.ToLower rusers rgroups L u) :=
  have h : ReachesOrg (RunE scenarioWorld scenarioFlags) :=
    ⟨⟨"ENG", "Engineering", true, [("WRITE", ["alice"]), ("ADMIN", ["bob", "carol"])]⟩, none,
      by decide⟩
  ⟨h, C1_permission_union scenarioWorld scenarioFlags h⟩

/-- C2 at the scenario with the repository-permission fetch failing. -/
theorem C2_witness :
    (⟨.GetUsersPermissionFromRepo "ENG" "svc", some "repository permissions unavailable"⟩ : Event) ∈
      (RunE repoFetchFailWorld scenarioFlags).trace ∧
    (RunE repoFetchFailWorld scenarioFlags).exit = .err "repository permissions unavailable" ∧
    (∃ pre, (RunE repoFetchFailWorld scenarioFlags).trace =
        pre ++ [⟨.GetUsersPermissionFromRepo "ENG" "svc",
          some "repository permissions unavailable"⟩] ∧ AllOk pre) ∧
    ((Call.GetUsersPermissionFromRepo "ENG" "svc").isProvision = false →
      NoProvision (RunE repoFetchFailWorld scenarioFlags).trace) :=
  have h : (⟨.GetUsersPermissionFromRepo "ENG" "svc",
      some "repository permissions unavailable"⟩ : Event) ∈
      (RunE repoFetchFailWorld scenarioFlags).trace := by decide
  ⟨h, C2_fail_fast repoFetchFailWorld scenarioFlags _ _ h⟩

/-- C3, counterexample. With an empty project key and a failing client
construction the run returns the construction error, not the validation
error: client construction comes before validation. -/
theorem C3_counterexample :
    emptyKeyFlags.projectKey = "" ∧
    RunE failedConstruction emptyKeyFlags =
      ⟨.err "mission gitea server or token",
        [⟨.NewMigration, some "mission gitea server or token"⟩], [], []⟩ ∧
    (RunE failedConstruction emptyKeyFlags).exit ≠ .err "project-key or repo-slug is empty" := by
  decide

/-- C3 (amended) at the scenario with an empty project key. -/
theorem C3_witness :
    (emptyKeyFlags.projectKey = "" ∨ emptyKeyFlags.repoSlug = "") ∧
    (∀ m, scenarioWorld.NewMigration = .ok m →
      RunE scenarioWorld emptyKeyFlags =
        ⟨.err "project-key or repo-slug is empty", [⟨.NewMigration, none⟩], [], []⟩) ∧
    (∀ e, scenarioWorld.NewMigration = .error e →
      RunE scenarioWorld emptyKeyFlags = ⟨.err e, [⟨.NewMigration, some e⟩], [], []⟩) :=
  ⟨Or.inl rfl, C3_validation_after_construction scenarioWorld emptyKeyFlags (Or.inl rfl)⟩

/-- C4 at the scenario of the specification (both target flags empty). -/
theorem C4_witness :
    ReachesOrg (RunE scenarioWorld scenarioFlags) ∧
    ∃ m org repo,
      scenarioWorld.NewMigration = .ok m ∧
      m.Bitbucket.GetProject scenarioFlags.projectKey = .ok org ∧
      m.Bitbucket.GetRepo scenarioFlags.projectKey scenarioFlags.repoSlug = .ok repo ∧
      (∀ o e, (⟨.CreateNewOrg o, e⟩ : Event) ∈ (RunE scenarioWorld scenarioFlags).trace →
        o.Name = if scenarioFlags.targetOwner = "" then org.Name else scenarioFlags.targetOwner) ∧
      (∀ o e, (⟨.MigrateNewRepo o, e⟩ : Event) ∈ (RunE scenarioWorld scenarioFlags).trace →
        (o.Owner = if scenarioFlags.targetOwner = "" then org.Name
          else scenarioFlags.targetOwner) ∧
        (o.Name = if scenarioFlags.targetRepo = "" then repo.Name
          else scenarioFlags.targetRepo)) :=
  have h : ReachesOrg (RunE scenarioWorld scenarioFlags) :=
    ⟨⟨"ENG", "Engineering", true, [("WRITE", ["alice"]), ("ADMIN", ["bob", "carol"])]⟩, none,
      by decide⟩
  ⟨h, C4_default_fallback scenarioWorld scenarioFlags h⟩

/-- C7, counterexample. In the scenario of the specification bob is a member
of the project group `eng-team` and a direct grantee of the repository: the
run succeeds and calls `GreateOrGetUser` twice with `LoginName` bob. -/
theorem C7_counterexample :
    (RunE scenarioWorld scenarioFlags).exit = .nil ∧
    loginCalls (RunE scenarioWorld scenarioFlags).trace "bob" = 2 := by
  decide

/-- C7 (amended) at the scenario of the specification. -/
theorem C7_witness :
    ReachesOrg (RunE scenarioWorld scenarioFlags) ∧
    ∃ m users groups rgroups rusers,
      scenarioWorld.NewMigration = .ok m ∧
      m.Bitbucket.GetUsersPermissionFromProject scenarioFlags.projectKey = .ok users ∧
      m.Bitbucket.GetGroupsPermissionFromProject scenarioFlags.projectKey = .ok groups ∧
      m.Bitbucket.GetGroupsPermissionFromRepo scenarioFlags.projectKey scenarioFlags.repoSlug =
        .ok rgroups ∧
      m.Bitbucket.GetUsersPermissionFromRepo scenarioFlags.projectKey scenarioFlags.repoSlug =
        .ok rusers ∧
      ∀ u, loginCalls (RunE scenarioWorld scenarioFlags).trace u =
        grantOccurrences m.Bitbucket scenarioWorld.ToLower users groups u +
          grantOccurrences m.Bitbucket scenarioWorld.ToLower rusers rgroups u :=
  have h : ReachesOrg (RunE scenarioWorld scenarioFlags) :=
    ⟨⟨"ENG", "Engineering", true, [("WRITE", ["alice"]), ("ADMIN", ["bob", "carol"])]⟩, none,
      by decide⟩
  ⟨h, C7_user_calls_per_grant scenarioWorld scenarioFlags h⟩

/-- C8, counterexample. When bob is granted ADMIN on the project both directly
and through `eng-team`, the run succeeds and bob occurs twice under ADMIN in
the project table handed to `CreateNewOrg`. -/
theorem C8_counterexample :
    (RunE dupWorld scenarioFlags).exit = .nil ∧
    (RunE dupWorld scenarioFlags).projectPermission.get "ADMIN" = ["bob", "bob", "carol"] ∧
    ((RunE dupWorld scenarioFlags).projectPermission.get "ADMIN").count "bob" = 2 := by
  decide

/-- C8 (amended) at the scenario with bob granted ADMIN twice. -/
theorem C8_witness :
    ReachesOrg (RunE dupWorld scenarioFlags) ∧
    ∃ m users groups rgroups rusers,
      dupWorld.NewMigration = .ok m ∧
      m.Bitbucket.GetUsersPermissionFromProject scenarioFlags.projectKey = .ok users ∧
      m.Bitbucket.GetGroupsPermissionFromProject scenarioFlags.projectKey = .ok groups ∧
      m.Bitbucket.GetGroupsPermissionFromRepo scenarioFlags.projectKey scenarioFlags.repoSlug =
        .ok rgroups ∧
      m.Bitbucket.GetUsersPermissionFromRepo scenarioFlags.projectKey scenarioFlags.repoSlug =
        .ok rusers ∧
      ∀ L u,
        ((RunE dupWorld scenarioFlags).projectPermission.get L).count u =
          grantOccurrences m.Bitbucket dupWorld.ToLower
            (users.filter (fun up => decide (up.Permission = L)))
            (groups.filter (fun g => decide (g.Permission = L))) u ∧
        ((RunE dupWorld scenarioFlags).repoPermission.get L).count u =
          grantOccurrences m.Bitbucket dupWorld.ToLower
            (rusers.filter (fun up => decide (up.Permission = L)))
            (rgroups.filter (fun g => decide (g.Permission = L))) u :=
  have h : ReachesOrg (RunE dupWorld scenarioFlags) :=
    ⟨⟨"ENG", "Engineering", true, [("WRITE", ["alice"]), ("ADMIN", ["bob", "bob", "carol"])]⟩,
      none, by decide⟩
  ⟨h, C8_table_multiplicity dupWorld scenarioFlags h⟩

/-- C9 at the scenario of the specification: carol is in the project table
and was provisioned by a successful call. -/
theorem C9_witness :
    (Named (RunE scenarioWorld scenarioFlags).projectPermission "carol" ∨
      Named (RunE scenarioWorld scenarioFlags).repoPermission "carol") ∧
    Provisioned (RunE scenarioWorld scenarioFlags).trace "carol" :=
  have h : Named (RunE scenarioWorld scenarioFlags).projectPermission "carol" ∨
      Named (RunE scenarioWorld scenarioFlags).repoPermission "carol" :=
    Or.inl ⟨"ADMIN", by decide⟩
  ⟨h, ((C9_canonical_login scenarioWorld scenarioFlags).2.1 "carol").1 h⟩

/-- C10, counterexample. With the clone links in the order http, ssh every
step succeeds and the import is invoked once with the ssh address, the entry
at index 1, although the sequence holds a link named http; with the http link
alone the run panics on the lookup after `CreateNewOrg` and invokes no import. -/
theorem C10_counterexample :
    (⟨"https://bitbucket/scm/eng/svc.git", "http"⟩ : CloneLink) ∈ httpFirstRepo.Links.Clone ∧
    (RunE httpFirstWorld scenarioFlags).exit = .nil ∧
    cloneAddrs (RunE httpFirstWorld scenarioFlags).trace = ["ssh://git@bitbucket/eng/svc.git"] ∧
    (⟨"https://bitbucket/scm/eng/svc.git", "http"⟩ : CloneLink) ∈ singleLinkRepo.Links.Clone ∧
    (RunE singleLinkWorld scenarioFlags).exit = .panic "index out of range [1]" ∧
    cloneAddrs (RunE singleLinkWorld scenarioFlags).trace = [] := by
  decide

/-- C10 (amended) at the scenario of the specification. -/
theorem C10_witness :
    (∃ o, (⟨.CreateNewOrg o, none⟩ : Event) ∈ (RunE scenarioWorld scenarioFlags).trace) ∧
    ∃ m repo,
      scenarioWorld.NewMigration = .ok m ∧
      m.Bitbucket.GetRepo scenarioFlags.projectKey scenarioFlags.repoSlug = .ok repo ∧
      ∀ link, repo.Links.Clone[1]? = some link →
        ∃ pre o e, (RunE scenarioWorld scenarioFlags).trace = pre ++ [⟨.MigrateNewRepo o, e⟩] ∧
          (∀ ev ∈ pre, ∀ o2, ev.call ≠ .MigrateNewRepo o2) ∧
          o.CloneAddr = link.Href ∧ o.Private = (!repo.Public) ∧
          o.Description = repo.Description :=
  have h : ∃ o, (⟨.CreateNewOrg o, none⟩ : Event) ∈ (RunE scenarioWorld scenarioFlags).trace :=
    ⟨⟨"ENG", "Engineering", true, [("WRITE", ["alice"]), ("ADMIN", ["bob", "carol"])]⟩,
      by decide⟩
  ⟨h, C10_clone_addr_positional scenarioWorld scenarioFlags h⟩

end Bitbucket2Gitea
